import Mathlib

/-!
# r2pipe-go: a shallow embedding of the command pipe

The Go package `r2pipe` drives radare2 over a pair of byte streams (or through a
native core handle).  This file embeds `Pipe` and its methods as state-passing
functions over an explicit `World` (the request stream, the response stream, the
child process, the native core and the file system), and proves properties of the
framing, the lifecycle and the event loop.

Go strings are byte sequences: they are `List Byte` here.  A call either returns,
panics (nil dereference) or blocks for ever: `Outcome`.
-/

namespace R2pipe

/-! ## Bytes, errors, outcomes -/

abbrev Byte := Fin 256

/-- Bytes of an ASCII string literal. -/
def ascii (s : String) : List Byte := s.toList.map (fun c => Fin.ofNat c.toNat)

/-- Go `error` values that occur in the package and in the library calls it makes. -/
inductive Error
  | EOF
  | ErrNoProgress
  | ErrBufferFull
  | ErrClosed
  | ErrInvalid
  | waitAlreadyCalled
  | notStarted
  | ErrSyntax
  | ErrRange
  | missingVars
  | sys (code : Nat)
  | wrapped (msg : String) (cause : Error)
  deriving DecidableEq, Repr

/-- How a call ends: it returns a value, panics, or never returns. -/
inductive Outcome (α : Type)
  | ret (a : α)
  | panic
  | hang
  deriving DecidableEq, Repr

/-! ## The environment -/

/-- An `*os.File` (or the pipe end `os/exec` hands out). -/
inductive Handle
  | file (fd : Int)
  | childStdin
  | childStdout
  | childStderr
  deriving DecidableEq, Repr

/-- `os.NewFile` returns a nil `*File` for a negative descriptor; every method of a
nil `*File` fails with `ErrInvalid`. -/
def Handle.valid : Handle → Bool
  | Handle.file fd => decide (0 ≤ fd)
  | _ => true

/-- What the response stream will hand to the next `Read` calls: data, a failing
system call (its errno), or the end of the stream. -/
inductive ReadEvent
  | chunk (bs : List Byte)
  | fail (errno : Nat)
  | eof
  deriving DecidableEq, Repr

/-- How `os.OpenFile(path, os.O_RDONLY, 0600)` ends for a path: the file opens, the
open fails with an errno, or it blocks (a FIFO without a writer). -/
inductive OpenOutcome
  | ok
  | fail (errno : Nat)
  | block
  deriving DecidableEq, Repr

/-- Calls made on the streams, the child, the native core and the file system, in the
order they are made; `write payload n` is a `Write` of `payload` of which the stream
took `n` bytes, `read bs` a `Read` that returned `bs`. -/
inductive Effect
  | write (payload : List Byte) (n : Nat)
  | read (bs : List Byte)
  | wait
  | coreCmd (core : Option Nat) (cmd : List Byte)
  | coreFree (core : Option Nat)
  | openFile (path : List Byte) (res : OpenOutcome)
  | go (path : List Byte) (evname : List Byte)
  deriving DecidableEq, Repr

/-- The environment of one `Pipe`.

* request stream: `stdinClosed` (closed on our side), `stdinFault` (`some (k, e)`:
  the stream takes `k` more bytes and then fails with `e`), `written` (bytes taken);
* response stream: `stdoutClosed`, `pending` (data and errors queued for `Read`);
* `script`: the producer at the other end; it reacts to the i-th complete request
  by queueing the i-th entry on the response stream;
* child process: `started`, `waited`, `exitErr` (what `Process.Wait` reports; the
  child is taken to exit once it is waited for);
* package variables of native.go: `lib` (the library handle is set) and `rCoreNew`,
  `rCoreFree`, `rCoreCmdStr` (the function variable is set, not nil);
* native core: `coreOut`, the results of the successive `r_core_cmd_str` calls;
* file system: `files` gives, path by path, how a read-only open ends, `openDefault`
  how it ends for the other paths;
* `log`: the calls made so far. -/
structure World where
  stdinClosed : Bool
  stdinFault : Option (Nat × Error)
  written : List Byte
  stdoutClosed : Bool
  pending : List ReadEvent
  script : List (List ReadEvent)
  started : Bool
  waited : Bool
  exitErr : Option Error
  lib : Bool
  rCoreNew : Bool
  rCoreFree : Bool
  rCoreCmdStr : Bool
  coreOut : List (List Byte)
  files : List (List Byte × OpenOutcome)
  openDefault : OpenOutcome
  log : List Effect
  deriving DecidableEq, Repr

/-- A quiet world: open streams, nothing queued, no library loaded, no file (every
open fails with ENOENT), nothing logged. -/
def World.init : World :=
  { stdinClosed := false, stdinFault := none, written := [], stdoutClosed := false,
    pending := [], script := [], started := false, waited := false, exitErr := none,
    lib := false, rCoreNew := false, rCoreFree := false, rCoreCmdStr := false,
    coreOut := [], files := [], openDefault := OpenOutcome.fail 2, log := [] }

/-- The producer answers one complete request. -/
def World.react (w : World) : World :=
  match w.script with
  | [] => w
  | r :: rest => { w with pending := w.pending ++ r, script := rest }

/-- The method `Write` of `*os.File`: all of `payload` is taken, or a prefix and an error. -/
def World.write (w : World) (h : Handle) (payload : List Byte) : (Nat × Option Error) × World :=
  if h.valid = false then
    ((0, some Error.ErrInvalid), { w with log := w.log ++ [Effect.write payload 0] })
  else if w.stdinClosed then
    ((0, some Error.ErrClosed), { w with log := w.log ++ [Effect.write payload 0] })
  else
    match w.stdinFault with
    | none =>
      ((payload.length, none),
        { w with written := w.written ++ payload,
                 log := w.log ++ [Effect.write payload payload.length] }.react)
    | some (k, e) =>
      if payload.length ≤ k then
        ((payload.length, none),
          { w with written := w.written ++ payload,
                   stdinFault := some (k - payload.length, e),
                   log := w.log ++ [Effect.write payload payload.length] }.react)
      else
        ((k, some e),
          { w with written := w.written ++ payload.take k,
                   stdinFault := some (0, e),
                   log := w.log ++ [Effect.write payload k] })

/-- Result of one `Read` call. -/
inductive ReadResult
  | data (bs : List Byte)
  | error (e : Error)
  | block
  deriving DecidableEq, Repr

/-- The method `Read` of `*os.File` with a buffer of `cap` bytes: at most `cap` bytes of
the first queued chunk; a queued error; end of stream; or nothing queued, and the
call blocks. -/
def World.read (w : World) (h : Handle) (cap : Nat) : ReadResult × World :=
  if h.valid = false then
    (ReadResult.error Error.ErrInvalid, { w with log := w.log ++ [Effect.read []] })
  else if w.stdoutClosed then
    (ReadResult.error Error.ErrClosed, { w with log := w.log ++ [Effect.read []] })
  else
    match w.pending with
    | [] => (ReadResult.block, w)
    | ReadEvent.chunk bs :: rest =>
      if bs.length ≤ cap then
        (ReadResult.data bs, { w with pending := rest, log := w.log ++ [Effect.read bs] })
      else
        (ReadResult.data (bs.take cap),
          { w with pending := ReadEvent.chunk (bs.drop cap) :: rest,
                   log := w.log ++ [Effect.read (bs.take cap)] })
    | ReadEvent.fail errno :: rest =>
      (ReadResult.error (Error.sys errno),
        { w with pending := rest, log := w.log ++ [Effect.read []] })
    | ReadEvent.eof :: _ =>
      (ReadResult.error Error.EOF, { w with log := w.log ++ [Effect.read []] })

/-! ## The Pipe -/

/-- The `*exec.Cmd` built by `exec.Command`. -/
structure ExecCmd where
  args : List (List Byte)
  deriving DecidableEq, Repr

/-- The closures assigned to `Pipe.cmd` (the field is unexported: these are all). -/
inductive CmdDelegate
  | native
  | api
  deriving DecidableEq, Repr

/-- The closures assigned to `Pipe.close`. -/
inductive CloseDelegate
  | native
  | api
  deriving DecidableEq, Repr

/-- The struct `Pipe`; `none` is Go's nil. -/
structure Pipe where
  File : List Byte
  r2cmd : Option ExecCmd
  stdin : Option Handle
  stdout : Option Handle
  stderr : Option Handle
  Core : Option Nat
  cmd : Option CmdDelegate
  close : Option CloseDelegate
  deriving DecidableEq, Repr

/-- The method `Pipe.Write`: `r2p.stdin.Write(p)`. -/
def Pipe.Write (r2p : Pipe) (p : List Byte) (w : World) : Outcome (Nat × Option Error) × World :=
  match r2p.stdin with
  | none => (Outcome.panic, w)
  | some h => let r := w.write h p; (Outcome.ret r.1, r.2)

/-- The method `Pipe.Read`: `r2p.stdout.Read(p)`, with `cap = len(p)`: one read of the
response stream, which returns as soon as some bytes are there (the comment in the
source speaks of stdin and of blocking until the commands have finished; the code
is what is embedded). -/
def Pipe.Read (r2p : Pipe) (cap : Nat) (w : World) : Outcome ReadResult × World :=
  match r2p.stdout with
  | none => (Outcome.panic, w)
  | some h => let r := w.read h cap; (Outcome.ret r.1, r.2)

/-! ## bufio.Reader -/

/-- Size of the buffer of `bufio.NewReader`. -/
def defaultBufSize : Nat := 4096

/-- The constant `maxConsecutiveEmptyReads` of bufio. -/
def maxConsecutiveEmptyReads : Nat := 100

/-- A `bufio.Reader` over a `Pipe`: the unread bytes `buf[r:w]` and the pending error. -/
structure Reader where
  buf : List Byte
  err : Option Error
  deriving DecidableEq, Repr

/-- The reader made by `bufio.NewReader`. -/
def NewReader : Reader := { buf := [], err := none }

/-- The read loop of `Reader.fill`: up to `i` reads until one returns data or an error. -/
def fillLoop (r2p : Pipe) : Nat → Reader → World → Outcome Reader × World
  | 0, b, w => (Outcome.ret { b with err := some Error.ErrNoProgress }, w)
  | i + 1, b, w =>
    match r2p.Read (defaultBufSize - b.buf.length) w with
    | (Outcome.ret (ReadResult.data bs), w1) =>
      if 0 < bs.length then (Outcome.ret { b with buf := b.buf ++ bs }, w1)
      else fillLoop r2p i b w1
    | (Outcome.ret (ReadResult.error e), w1) => (Outcome.ret { b with err := some e }, w1)
    | (Outcome.ret ReadResult.block, w1) => (Outcome.hang, w1)
    | (Outcome.panic, w1) => (Outcome.panic, w1)
    | (Outcome.hang, w1) => (Outcome.hang, w1)

/-- The method `Reader.fill`. -/
def fill (r2p : Pipe) (b : Reader) (w : World) : Outcome Reader × World :=
  fillLoop r2p maxConsecutiveEmptyReads b w

/-- Position of the first `delim` in `s` (`bytes.IndexByte`). -/
def indexByte : List Byte → Byte → Option Nat
  | [], _ => none
  | x :: xs, d => if x = d then some 0 else (indexByte xs d).map (· + 1)

/-- The method `Reader.ReadSlice`; `fuel` bounds the iterations of its loop.  Each
iteration but the last takes at least one byte or event off the queue, which is what
`World.fuel` counts: larger bounds give the same result (`ReadString_fuel`). -/
def ReadSlice (r2p : Pipe) (delim : Byte) :
    Nat → Reader → World → Outcome (List Byte × Option Error) × Reader × World
  | 0, b, w => (Outcome.hang, b, w)
  | fuel + 1, b, w =>
    match indexByte b.buf delim with
    | some i => (Outcome.ret (b.buf.take (i + 1), none), { b with buf := b.buf.drop (i + 1) }, w)
    | none =>
      match b.err with
      | some e => (Outcome.ret (b.buf, some e), { buf := [], err := none }, w)
      | none =>
        if defaultBufSize ≤ b.buf.length then
          (Outcome.ret (b.buf, some Error.ErrBufferFull), { b with buf := [] }, w)
        else
          match fill r2p b w with
          | (Outcome.ret b1, w1) => ReadSlice r2p delim fuel b1 w1
          | (Outcome.panic, w1) => (Outcome.panic, b, w1)
          | (Outcome.hang, w1) => (Outcome.hang, b, w1)

/-- The loop of `Reader.collectFragments`, with the full buffers gathered in `acc`. -/
def collectFragments (r2p : Pipe) (delim : Byte) (sliceFuel : Nat) :
    Nat → List Byte → Reader → World → Outcome (List Byte × Option Error) × Reader × World
  | 0, _, b, w => (Outcome.hang, b, w)
  | fuel + 1, acc, b, w =>
    match ReadSlice r2p delim sliceFuel b w with
    | (Outcome.ret (frag, none), b1, w1) => (Outcome.ret (acc ++ frag, none), b1, w1)
    | (Outcome.ret (frag, some e), b1, w1) =>
      if e = Error.ErrBufferFull then collectFragments r2p delim sliceFuel fuel (acc ++ frag) b1 w1
      else (Outcome.ret (acc ++ frag, some e), b1, w1)
    | (Outcome.panic, b1, w1) => (Outcome.panic, b1, w1)
    | (Outcome.hang, b1, w1) => (Outcome.hang, b1, w1)

/-- Number of bytes and events queued on the response stream. -/
def pendingSize : List ReadEvent → Nat
  | [] => 0
  | ReadEvent.chunk bs :: rest => bs.length + 1 + pendingSize rest
  | _ :: rest => 1 + pendingSize rest

/-- Iterations that suffice to drain what is queued. -/
def World.fuel (w : World) : Nat := pendingSize w.pending + 2

/-- The method `Reader.ReadString`: the bytes up to and including the first `delim`,
or the bytes read before an error, and that error. -/
def ReadString (r2p : Pipe) (b : Reader) (delim : Byte) (w : World) :
    Outcome (List Byte × Option Error) × Reader × World :=
  collectFragments r2p delim w.fuel w.fuel [] b w

/-! ## strings, fmt -/

/-- The function `strings.TrimRight` for an ASCII cutset: trailing bytes of the cutset go. -/
def TrimRight (s cutset : List Byte) : List Byte :=
  s.rdropWhile (fun b => decide (b ∈ cutset))

/-- The function `fmt.Fprintln(r2p, cmd)`: one `Write` of the operand and a newline. -/
def Fprintln (r2p : Pipe) (cmd : List Byte) (w : World) : Outcome (Nat × Option Error) × World :=
  r2p.Write (cmd ++ [10]) w

/-! ## Foreign calls, process, files -/

/-- The foreign call `r_core_cmd_str(core, cmd)`: the next scripted result. -/
def World.coreCmdStr (w : World) (core : Option Nat) (cmd : List Byte) : List Byte × World :=
  match w.coreOut with
  | [] => ([], { w with log := w.log ++ [Effect.coreCmd core cmd] })
  | r :: rest => (r, { w with coreOut := rest, log := w.log ++ [Effect.coreCmd core cmd] })

/-- The foreign call `r_core_free(core)`. -/
def World.coreFree (w : World) (core : Option Nat) : World :=
  { w with log := w.log ++ [Effect.coreFree core] }

/-- The method `Wait` of `exec.Cmd`: reaps the child once, then closes the parent's ends of the pipes. -/
def World.wait (w : World) : Option Error × World :=
  if w.started = false then (some Error.notStarted, w)
  else if w.waited then (some Error.waitAlreadyCalled, w)
  else
    (w.exitErr,
      { w with waited := true, stdinClosed := true, stdoutClosed := true,
               log := w.log ++ [Effect.wait] })

/-- The function `os.OpenFile(path, os.O_RDONLY, 0600)`. -/
def World.openFile (w : World) (path : List Byte) : OpenOutcome × World :=
  ((w.files.lookup path).getD w.openDefault,
    { w with log := w.log ++ [Effect.openFile path ((w.files.lookup path).getD w.openDefault)] })

/-! ## native.go, api.go -/

/-- The method `Pipe.NativeCmd`: a call of the function variable `rCoreCmdStr` (a
panic when it is nil), never an error. -/
def Pipe.NativeCmd (r2p : Pipe) (cmd : List Byte) (w : World) :
    Outcome (List Byte × Option Error) × Pipe × World :=
  if w.rCoreCmdStr = false then (Outcome.panic, r2p, w)
  else
    let res := w.coreCmdStr r2p.Core cmd
    (Outcome.ret (res.1, none), r2p, res.2)

/-- The method `Pipe.NativeClose`: a call of the function variable `rCoreFree` (a panic
when it is nil), then `Core` is cleared. -/
def Pipe.NativeClose (r2p : Pipe) (w : World) : Outcome (Option Error) × Pipe × World :=
  if w.rCoreFree = false then (Outcome.panic, r2p, w)
  else (Outcome.ret none, { r2p with Core := none }, w.coreFree r2p.Core)

/-- The method `Pipe.ApiCmd`: one foreign call of the linked library, never an error. -/
def Pipe.ApiCmd (r2p : Pipe) (cmd : List Byte) (w : World) :
    Outcome (List Byte × Option Error) × Pipe × World :=
  let res := w.coreCmdStr r2p.Core cmd
  (Outcome.ret (res.1, none), r2p, res.2)

/-- The method `Pipe.ApiClose`: frees the core and clears `Core`. -/
def Pipe.ApiClose (r2p : Pipe) (w : World) : Outcome (Option Error) × Pipe × World :=
  (Outcome.ret none, { r2p with Core := none }, w.coreFree r2p.Core)

/-- Calling the closure stored in `Pipe.cmd`. -/
def CmdDelegate.call : CmdDelegate → Pipe → List Byte → World →
    Outcome (List Byte × Option Error) × Pipe × World
  | CmdDelegate.native, r2p, cmd, w => r2p.NativeCmd cmd w
  | CmdDelegate.api, r2p, cmd, w => r2p.ApiCmd cmd w

/-- Calling the closure stored in `Pipe.close`. -/
def CloseDelegate.call : CloseDelegate → Pipe → World → Outcome (Option Error) × Pipe × World
  | CloseDelegate.native, r2p, w => r2p.NativeClose w
  | CloseDelegate.api, r2p, w => r2p.ApiClose w

/-! ## r2pipe.go -/

/-- The method `Pipe.Cmd`. -/
def Pipe.Cmd (r2p : Pipe) (cmd : List Byte) (w : World) :
    Outcome (List Byte × Option Error) × Pipe × World :=
  if r2p.Core ≠ none then
    match r2p.cmd with
    | some d => d.call r2p cmd w
    | none => (Outcome.ret ([], none), r2p, w)
  else
    match Fprintln r2p cmd w with
    | (Outcome.ret (_, some err), w1) => (Outcome.ret ([], some err), r2p, w1)
    | (Outcome.ret (_, none), w1) =>
      match ReadString r2p NewReader 0 w1 with
      | (Outcome.ret (_, some err), _, w2) => (Outcome.ret ([], some err), r2p, w2)
      | (Outcome.ret (buf, none), _, w2) => (Outcome.ret (TrimRight buf [10, 0], none), r2p, w2)
      | (Outcome.panic, _, w2) => (Outcome.panic, r2p, w2)
      | (Outcome.hang, _, w2) => (Outcome.hang, r2p, w2)
    | (Outcome.panic, w1) => (Outcome.panic, r2p, w1)
    | (Outcome.hang, w1) => (Outcome.hang, r2p, w1)

/-- The method `Pipe.Cmdf`, over the formatter `fmt.Sprintf`. -/
def Pipe.Cmdf {F A : Type} (Sprintf : F → A → List Byte) (r2p : Pipe) (f : F) (args : A)
    (w : World) : Outcome (List Byte × Option Error) × Pipe × World :=
  r2p.Cmd (Sprintf f args) w

/-- The method `Pipe.Cmdj`, over the decoder `json.Unmarshal` into an empty interface. -/
def Pipe.Cmdj {J : Type} (Unmarshal : List Byte → Option J × Option Error) (r2p : Pipe)
    (cmd : List Byte) (w : World) : Outcome (Option J × Option Error) × Pipe × World :=
  match r2p.Cmd cmd w with
  | (Outcome.ret (_, some err), p1, w1) => (Outcome.ret (none, some err), p1, w1)
  | (Outcome.ret (rstr, none), p1, w1) => (Outcome.ret (Unmarshal rstr), p1, w1)
  | (Outcome.panic, p1, w1) => (Outcome.panic, p1, w1)
  | (Outcome.hang, p1, w1) => (Outcome.hang, p1, w1)

/-- The method `Pipe.CmdjStruct`, over the decoder `json.Unmarshal` into `out`. -/
def Pipe.CmdjStruct {S : Type} (Unmarshal : List Byte → S → S × Option Error) (r2p : Pipe)
    (cmd : List Byte) (out : S) (w : World) : Outcome (S × Option Error) × Pipe × World :=
  match r2p.Cmd cmd w with
  | (Outcome.ret (_, some err), p1, w1) => (Outcome.ret (out, some err), p1, w1)
  | (Outcome.ret (rstr, none), p1, w1) => (Outcome.ret (Unmarshal rstr out), p1, w1)
  | (Outcome.panic, p1, w1) => (Outcome.panic, p1, w1)
  | (Outcome.hang, p1, w1) => (Outcome.hang, p1, w1)

/-- The call `r2p.r2cmd.Wait()`. -/
def Pipe.Wait (r2p : Pipe) (w : World) : Outcome (Option Error) × Pipe × World :=
  match r2p.r2cmd with
  | none => (Outcome.panic, r2p, w)
  | some _ => let r := w.wait; (Outcome.ret r.1, r2p, r.2)

/-- The method `Pipe.Close`. -/
def Pipe.Close (r2p : Pipe) (w : World) : Outcome (Option Error) × Pipe × World :=
  match r2p.close with
  | some d => d.call r2p w
  | none =>
    if r2p.File = [] then (Outcome.ret none, r2p, w)
    else
      match r2p.Cmd (ascii "q") w with
      | (Outcome.ret (_, some err), p1, w1) => (Outcome.ret (some err), p1, w1)
      | (Outcome.ret (_, none), p1, w1) => p1.Wait w1
      | (Outcome.panic, p1, w1) => (Outcome.panic, p1, w1)
      | (Outcome.hang, p1, w1) => (Outcome.hang, p1, w1)

/-- The method `Pipe.ForceClose`. -/
def Pipe.ForceClose (r2p : Pipe) (w : World) : Outcome (Option Error) × Pipe × World :=
  match r2p.close with
  | some d => d.call r2p w
  | none =>
    if r2p.File = [] then (Outcome.ret none, r2p, w)
    else
      match r2p.Cmd (ascii "q!") w with
      | (Outcome.ret (_, some err), p1, w1) => (Outcome.ret (some err), p1, w1)
      | (Outcome.ret (_, none), p1, w1) => p1.Wait w1
      | (Outcome.panic, p1, w1) => (Outcome.panic, p1, w1)
      | (Outcome.hang, p1, w1) => (Outcome.hang, p1, w1)

/-! ## Constructors -/

/-- What the constructors ask of the process environment: the two variables (empty when
unset), the failures of `StdinPipe`, `StdoutPipe`, `StderrPipe` and `Start`, the
failures of `dlOpen` and of `dlSym` for each of the three symbols, and the handle
`r_core_new` returns. -/
structure Env where
  R2PIPE_IN : List Byte
  R2PIPE_OUT : List Byte
  stdinPipeErr : Option Error
  stdoutPipeErr : Option Error
  stderrPipeErr : Option Error
  startErr : Option Error
  dlOpenErr : Option Error
  symNewErr : Option Error
  symFreeErr : Option Error
  symCmdErr : Option Error
  newCore : Option Nat
  deriving DecidableEq, Repr

/-- Value of a run of decimal digits, `none` on any other byte. -/
def digitsValue : List Byte → Nat → Option Nat
  | [], acc => some acc
  | b :: bs, acc =>
    if 48 ≤ b.val ∧ b.val ≤ 57 then digitsValue bs (acc * 10 + (b.val - 48)) else none

/-- The function `strconv.Atoi`: an optional sign, decimal digits, the range of a 64-bit int. -/
def Atoi (s : List Byte) : Int × Option Error :=
  let body := if s.head? = some 43 ∨ s.head? = some 45 then s.tail else s
  if body = [] then (0, some Error.ErrSyntax)
  else
    match digitsValue body 0 with
    | none => (0, some Error.ErrSyntax)
    | some v =>
      if s.head? = some 45 then
        if v ≤ 2 ^ 63 then (-(v : Int), none) else (-(2 ^ 63 : Int), some Error.ErrRange)
      else
        if v < 2 ^ 63 then ((v : Int), none) else ((2 ^ 63 - 1 : Int), some Error.ErrRange)

/-- The function `os.NewFile(uintptr(fd), name)`. -/
def NewFile (fd : Int) : Handle := Handle.file fd

/-- The function `newPipeFd`. -/
def newPipeFd (env : Env) (w : World) : Outcome (Option Pipe × Option Error) × World :=
  if env.R2PIPE_IN = [] ∨ env.R2PIPE_OUT = [] then
    (Outcome.ret (none, some Error.missingVars), w)
  else
    match Atoi env.R2PIPE_IN with
    | (_, some err) =>
      (Outcome.ret (none,
        some (Error.wrapped "failed to convert IN into file descriptor" err)), w)
    | (r2pipeInFd, none) =>
      match Atoi env.R2PIPE_OUT with
      | (_, some err) =>
        (Outcome.ret (none,
          some (Error.wrapped "failed to convert OUT into file descriptor" err)), w)
      | (r2pipeOutFd, none) =>
        (Outcome.ret (some { File := [], r2cmd := none, stdin := some (NewFile r2pipeOutFd),
                             stdout := some (NewFile r2pipeInFd), stderr := none,
                             Core := none, cmd := none, close := none }, none), w)

/-- The function `newPipeCmd`; the banner of the child is what `w` has queued. -/
def newPipeCmd (env : Env) (file : List Byte) (w : World) :
    Outcome (Option Pipe × Option Error) × World :=
  let r2p : Pipe :=
    { File := file, r2cmd := some { args := [ascii "radare2", ascii "-q0", file] },
      stdin := none, stdout := none, stderr := none, Core := none, cmd := none, close := none }
  match env.stdinPipeErr with
  | some err => (Outcome.ret (none, some (Error.wrapped "failed to create stdin pipe" err)), w)
  | none =>
    let r2p := { r2p with stdin := some Handle.childStdin }
    match env.stdoutPipeErr with
    | some err =>
      (Outcome.ret (none, some (Error.wrapped "failed to create stdout pipe" err)), w)
    | none =>
      let r2p := { r2p with stdout := some Handle.childStdout }
      match env.stderrPipeErr with
      | some err =>
        (Outcome.ret (none, some (Error.wrapped "failed to create stderr pipe" err)), w)
      | none =>
        let r2p := { r2p with stderr := some Handle.childStderr }
        match env.startErr with
        | some err =>
          (Outcome.ret (none, some (Error.wrapped "failed to start radare2" err)), w)
        | none =>
          match ReadString r2p NewReader 0 { w with started := true } with
          | (Outcome.ret (_, some err), _, w1) =>
            (Outcome.ret (none, some (Error.wrapped "failed to read initial data" err)), w1)
          | (Outcome.ret (_, none), _, w1) => (Outcome.ret (some r2p, none), w1)
          | (Outcome.panic, _, w1) => (Outcome.panic, w1)
          | (Outcome.hang, _, w1) => (Outcome.hang, w1)

/-- The function `NewPipe`. -/
def NewPipe (env : Env) (file : List Byte) (w : World) :
    Outcome (Option Pipe × Option Error) × World :=
  if file = [] then newPipeFd env w else newPipeCmd env file w

/-- The function `NativeLoad`: nothing to do once `lib` is set; else `lib` is set as
soon as the library opens, and each function variable once its symbol resolves. -/
def NativeLoad (env : Env) (w : World) : Option Error × World :=
  if w.lib then (none, w)
  else
    match env.dlOpenErr with
    | some err => (some err, w)
    | none =>
      match env.symNewErr with
      | some err => (some err, { w with lib := true })
      | none =>
        match env.symFreeErr with
        | some err => (some err, { w with lib := true, rCoreNew := true })
        | none =>
          match env.symCmdErr with
          | some err => (some err, { w with lib := true, rCoreNew := true, rCoreFree := true })
          | none =>
            (none, { w with lib := true, rCoreNew := true, rCoreFree := true,
                            rCoreCmdStr := true })

/-- The function `NewNativePipe`; the calls of `rCoreNew` and of `NativeCmd` panic when
the function variable is nil. -/
def NewNativePipe (env : Env) (file : List Byte) (w : World) :
    Outcome (Option Pipe × Option Error) × World :=
  match NativeLoad env w with
  | (some err, w1) => (Outcome.ret (none, some err), w1)
  | (none, w1) =>
    if w1.rCoreNew = false then (Outcome.panic, w1)
    else
      let r2p : Pipe :=
        { File := file, r2cmd := none, stdin := none, stdout := none, stderr := none,
          Core := env.newCore, cmd := some CmdDelegate.native,
          close := some CloseDelegate.native }
      if file ≠ [] then
        match r2p.NativeCmd (ascii "o " ++ file) w1 with
        | (Outcome.ret _, _, w2) => (Outcome.ret (some r2p, none), w2)
        | (Outcome.panic, _, w2) => (Outcome.panic, w2)
        | (Outcome.hang, _, w2) => (Outcome.hang, w2)
      else (Outcome.ret (some r2p, none), w1)

/-- The function `NewApiPipe`. -/
def NewApiPipe (env : Env) (file : List Byte) (w : World) :
    Outcome (Option Pipe × Option Error) × World :=
  let r2p : Pipe :=
    { File := file, r2cmd := none, stdin := none, stdout := none, stderr := none,
      Core := env.newCore, cmd := some CmdDelegate.api, close := some CloseDelegate.api }
  if file ≠ [] then (Outcome.ret (some r2p, none), (r2p.ApiCmd (ascii "o " ++ file) w).2.2)
  else (Outcome.ret (some r2p, none), w)

/-! ## Events -/

/-- The method `Pipe.On` up to the `go` statement; the user value and the callback are
only captured by the goroutine it starts (the effect `go`). -/
def Pipe.On {U C : Type} (r2p : Pipe) (evname : List Byte) (_p : U) (_cb : C) (w : World) :
    Outcome (Option Error) × Pipe × World :=
  match r2p.Cmd (ascii "===stderr") w with
  | (Outcome.ret (_, some err), p1, w1) => (Outcome.ret (some err), p1, w1)
  | (Outcome.ret (path, none), p1, w1) =>
    match w1.openFile path with
    | (OpenOutcome.fail errno, w2) => (Outcome.ret (some (Error.sys errno)), p1, w2)
    | (OpenOutcome.block, w2) => (Outcome.hang, p1, w2)
    | (OpenOutcome.ok, w2) =>
      (Outcome.ret none, p1, { w2 with log := w2.log ++ [Effect.go path evname] })
  | (Outcome.panic, p1, w1) => (Outcome.panic, p1, w1)
  | (Outcome.hang, p1, w1) => (Outcome.hang, p1, w1)

/-- Result of one `io.Copy(&buf, f)`: the text appended to the buffer, and a nil error
(the file is at its end for now) or a read error. -/
inductive CopyResult
  | copied (bs : List Byte)
  | failed (bs : List Byte) (errno : Nat)
  deriving DecidableEq, Repr

/-- What is seen of the background loop: the text passed to each callback call, in
order, whether the loop has left, and the buffer. -/
structure LoopRun where
  calls : List (List Byte)
  stopped : Bool
  buf : List Byte
  deriving DecidableEq, Repr

/-- The loop of the goroutine started by `On`, watched for `fuel` iterations.  The callback
`cb` carries its own state; once `copies` is used up the file has nothing new and
`io.Copy` appends nothing. -/
def eventLoop {σ : Type} (cb : σ → List Byte → Bool × σ) :
    Nat → List CopyResult → List Byte → σ → LoopRun
  | 0, _, buf, _ => { calls := [], stopped := false, buf := buf }
  | fuel + 1, copies, buf, s =>
    match copies.head?.getD (CopyResult.copied []) with
    | CopyResult.failed bs _ => { calls := [], stopped := true, buf := buf ++ bs }
    | CopyResult.copied bs =>
      if 0 < (buf ++ bs).length then
        if (cb s (buf ++ bs)).1 = false then
          { calls := [buf ++ bs], stopped := true, buf := buf ++ bs }
        else
          let run := eventLoop cb fuel copies.tail (buf ++ bs) (cb s (buf ++ bs)).2
          { run with calls := (buf ++ bs) :: run.calls }
      else eventLoop cb fuel copies.tail (buf ++ bs) s

/-! ## Serial use -/

/-- Commands issued one after the other on one Pipe; a call that does not return ends the run. -/
def Pipe.CmdAll (r2p : Pipe) :
    List (List Byte) → World → List (Outcome (List Byte × Option Error)) × World
  | [], w => ([], w)
  | c :: cs, w =>
    match r2p.Cmd c w with
    | (Outcome.ret a, p1, w1) => (Outcome.ret a :: (p1.CmdAll cs w1).1, (p1.CmdAll cs w1).2)
    | (o, _, w1) => ([o], w1)

/-! ## Predicates and sample data used by the statements -/

/-- The body `Close` and `ForceClose` have in common, over the quit command. -/
def Pipe.closeWith (quit : List Byte) (r2p : Pipe) (w : World) :
    Outcome (Option Error) × Pipe × World :=
  match r2p.close with
  | some d => d.call r2p w
  | none =>
    if r2p.File = [] then (Outcome.ret none, r2p, w)
    else
      match r2p.Cmd quit w with
      | (Outcome.ret (_, some err), p1, w1) => (Outcome.ret (some err), p1, w1)
      | (Outcome.ret (_, none), p1, w1) => p1.Wait w1
      | (Outcome.panic, p1, w1) => (Outcome.panic, p1, w1)
      | (Outcome.hang, p1, w1) => (Outcome.hang, p1, w1)

/-- The response stream can be read: the handle is valid and our end is open. -/
def Readable (r2p : Pipe) (w : World) : Prop :=
  (∃ h, r2p.stdout = some h ∧ h.valid = true) ∧ w.stdoutClosed = false

/-- The response stream holds the bytes `s`, cut into non-empty reads, and then `rest`. -/
def Framed (w : World) (s : List Byte) (rest : List ReadEvent) : Prop :=
  ∃ cs : List (List Byte), w.pending = cs.map ReadEvent.chunk ++ rest ∧
    (∀ c ∈ cs, c ≠ []) ∧ cs.flatten = s

/-- Two worlds that differ in the response queue and the log only. -/
def SameSide (w w1 : World) : Prop :=
  w1 = { w with pending := w1.pending, log := w1.log }

/-- A spawned Pipe, as `newPipeCmd` returns it. -/
def demoPipe : Pipe :=
  { File := ascii "malloc://256",
    r2cmd := some { args := [ascii "radare2", ascii "-q0", ascii "malloc://256"] },
    stdin := some Handle.childStdin, stdout := some Handle.childStdout,
    stderr := some Handle.childStderr, Core := none, cmd := none, close := none }

/-- A world whose producer answers the successive requests with the given reads. -/
def answering (frames : List (List (List Byte))) : World :=
  { World.init with started := true, script := frames.map (List.map ReadEvent.chunk) }

/-- A read error can come: `stop` ends the stream or fails a system call. -/
def ReadEvent.isStop : ReadEvent → Bool
  | ReadEvent.chunk _ => false
  | _ => true

/-- The response stream ends or fails before any 0x00 byte: NUL-free reads (empty
ones allowed), then an end of stream or a failing read. -/
def Doomed (w : World) : Prop :=
  ∃ (cs : List (List Byte)) (stop : ReadEvent) (rest : List ReadEvent),
    w.pending = cs.map ReadEvent.chunk ++ stop :: rest ∧
      (∀ c ∈ cs, (0 : Byte) ∉ c) ∧ stop.isStop = true

/-- No terminator can be read: the handle is invalid, our end is closed, or the stream
is `Doomed`. -/
def Bad (r2p : Pipe) (w : World) : Prop :=
  ∃ h, r2p.stdout = some h ∧ (h.valid = false ∨ w.stdoutClosed = true ∨ Doomed w)

/-- The request stream takes every write: valid handle, open, no fault ahead. -/
def Writable (r2p : Pipe) (w : World) : Prop :=
  (∃ h, r2p.stdin = some h ∧ h.valid = true) ∧ w.stdinClosed = false ∧ w.stdinFault = none

/-- The chunking `cs` delivers the NUL-free payload `f` and its terminator in non-empty reads. -/
def Delivers (f : List Byte) (cs : List (List Byte)) : Prop :=
  cs.flatten = f ++ [0] ∧ (0 : Byte) ∉ f ∧ ∀ c ∈ cs, c ≠ []

/-- An environment in which every library call of the constructors succeeds. -/
def demoEnv : Env :=
  { R2PIPE_IN := ascii "3", R2PIPE_OUT := ascii "4", stdinPipeErr := none,
    stdoutPipeErr := none, stderrPipeErr := none, startErr := none, dlOpenErr := none,
    symNewErr := none, symFreeErr := none, symCmdErr := none, newCore := some 1 }

/-- A child that prints an empty banner and answers each of two requests with an
empty frame. -/
def demoChild : World :=
  { World.init with pending := [ReadEvent.chunk [0]],
                    script := [[ReadEvent.chunk [0]], [ReadEvent.chunk [0]]] }

/-- The Pipe `NewPipe` returns for the empty target with `R2PIPE_IN=3`, `R2PIPE_OUT=4`. -/
def demoFdPipe : Pipe :=
  { File := [], r2cmd := none, stdin := some (Handle.file 4), stdout := some (Handle.file 3),
    stderr := none, Core := none, cmd := none, close := none }

/-- The Pipe `NewNativePipe` returns for the empty target when `r_core_new` returns handle 1. -/
def demoNativePipe : Pipe :=
  { File := [], r2cmd := none, stdin := none, stdout := none, stderr := none,
    Core := some 1, cmd := some CmdDelegate.native, close := some CloseDelegate.native }

/-- The world after a complete `NativeLoad`: the three function variables are set. -/
def demoLoaded : World :=
  { World.init with lib := true, rCoreNew := true, rCoreFree := true, rCoreCmdStr := true }

/-- A world in which the native command returns a path that can be opened. -/
def demoSideChannel : World :=
  { demoLoaded with coreOut := [ascii "/tmp/r2.err"],
                    files := [(ascii "/tmp/r2.err", OpenOutcome.ok)] }

/-- An environment in which the library opens and `r_core_new` resolves, but
`r_core_free` does not: `NativeLoad` fails and leaves `lib` set. -/
def demoBrokenEnv : Env :=
  { demoEnv with symFreeErr := some (Error.sys 0) }

/-- The effect is a `Read` call on the response stream. -/
def Effect.isRead : Effect → Bool
  | Effect.read _ => true
  | _ => false

/-- From `w` to `w1` only `Read` calls were made: the log grew by reads, the response
queue may have shrunk, nothing else changed. -/
def ReadsOnly (w w1 : World) : Prop :=
  ∃ rs : List Effect, (∀ e ∈ rs, e.isRead = true) ∧
    w1 = { w with pending := w1.pending, log := w.log ++ rs }

/-- A callback that asks to continue on its first `k` calls and to stop on the next;
its state counts the calls. -/
def stopAfter (k : Nat) : Nat → List Byte → Bool × Nat :=
  fun n _ => (decide (n < k), n + 1)

/-! ## Framing: lemmas on the reader -/

theorem sameSide_refl (w : World) : SameSide w w := rfl

theorem sameSide_trans {a b c : World} (h1 : SameSide a b) (h2 : SameSide b c) :
    SameSide a c := by
  unfold SameSide at *
  rw [h2, h1]

theorem sameSide_readable {r2p : Pipe} {a b : World} (h : SameSide a b)
    (hr : Readable r2p a) : Readable r2p b := by
  unfold SameSide at h
  refine ⟨hr.1, ?_⟩
  rw [h]
  exact hr.2

theorem indexByte_none {l : List Byte} {d : Byte} (h : d ∉ l) : indexByte l d = none := by
  induction l with
  | nil => rfl
  | cons x xs ih =>
    have hx : x ≠ d := fun e => h (by simp [e])
    have hxs : d ∉ xs := fun e => h (by simp [e])
    simp [indexByte, hx, ih hxs]

theorem indexByte_append_self {l : List Byte} {d : Byte} (h : d ∉ l) (t : List Byte) :
    indexByte (l ++ d :: t) d = some l.length := by
  induction l with
  | nil => simp [indexByte]
  | cons x xs ih =>
    have hx : x ≠ d := fun e => h (by simp [e])
    have hxs : d ∉ xs := fun e => h (by simp [e])
    simp [indexByte, hx, ih hxs]

theorem framed_nil {w : World} {rest : List ReadEvent} (h : Framed w [] rest) :
    w.pending = rest := by
  obtain ⟨cs, hp, hne, hj⟩ := h
  cases cs with
  | nil => simpa using hp
  | cons c cs =>
    exfalso
    have : c = [] := by
      have := congrArg List.length hj
      simp at this
      exact this.1
    exact hne c (by simp) this

/-- One `Read` on a framed stream returns a non-empty prefix of what is queued. -/
theorem read_framed {r2p : Pipe} {w : World} {s : List Byte} {rest : List ReadEvent}
    (hr : Readable r2p w) (hf : Framed w s rest) (hs : s ≠ []) (cap : Nat) (hcap : 0 < cap) :
    ∃ t t1 w1, t ≠ [] ∧ s = t ++ t1 ∧ t.length ≤ cap ∧
      r2p.Read cap w = (Outcome.ret (ReadResult.data t), w1) ∧
      Framed w1 t1 rest ∧ SameSide w w1 ∧ w1.log = w.log ++ [Effect.read t] := by
  obtain ⟨⟨h, hh, hv⟩, hopen⟩ := hr
  obtain ⟨cs, hp, hne, hj⟩ := hf
  cases cs with
  | nil => exact absurd hj.symm hs
  | cons c cs =>
    have hc : c ≠ [] := hne c (by simp)
    simp only [List.map_cons, List.cons_append] at hp
    by_cases hle : c.length ≤ cap
    · refine ⟨c, cs.flatten, { w with pending := cs.map ReadEvent.chunk ++ rest, log := w.log ++ [Effect.read c] }, hc, by simpa using hj.symm, hle, ?_, ?_, ?_, rfl⟩
      · simp [Pipe.Read, hh, World.read, hv, hopen, hp, hle]
      · exact ⟨cs, rfl, fun x hx => hne x (by simp [hx]), rfl⟩
      · rfl
    · have hlt : cap < c.length := Nat.lt_of_not_le hle
      refine ⟨c.take cap, c.drop cap ++ cs.flatten,
        { w with pending := ReadEvent.chunk (c.drop cap) :: (cs.map ReadEvent.chunk ++ rest), log := w.log ++ [Effect.read (c.take cap)] }, ?_, ?_, ?_, ?_, ?_, ?_, rfl⟩
      · intro h0
        have := congrArg List.length h0
        rw [List.length_take, List.length_nil] at this
        omega
      · rw [← List.append_assoc, List.take_append_drop]
        simpa using hj.symm
      · simp
      · simp [Pipe.Read, hh, World.read, hv, hopen, hp, hle]
      · refine ⟨c.drop cap :: cs, rfl, ?_, rfl⟩
        intro x hx
        rcases List.mem_cons.mp hx with hx | hx
        · intro h0
          rw [hx] at h0
          have := congrArg List.length h0
          rw [List.length_drop, List.length_nil] at this
          omega
        · exact hne x (by simp [hx])
      · rfl

/-- One `fill` on a framed stream appends a non-empty prefix of what is queued. -/
theorem fill_framed {r2p : Pipe} {w : World} {s : List Byte} {rest : List ReadEvent}
    (hr : Readable r2p w) (hf : Framed w s rest) (hs : s ≠ []) (b : Reader)
    (hb : b.buf.length < defaultBufSize) :
    ∃ t t1 w1, t ≠ [] ∧ s = t ++ t1 ∧ b.buf.length + t.length ≤ defaultBufSize ∧
      fill r2p b w = (Outcome.ret { b with buf := b.buf ++ t }, w1) ∧
      Framed w1 t1 rest ∧ SameSide w w1 ∧ w1.log = w.log ++ [Effect.read t] := by
  obtain ⟨t, t1, w1, ht, hst, hlen, hread, hf1, hss, hlog⟩ :=
    read_framed hr hf hs (defaultBufSize - b.buf.length) (by omega)
  refine ⟨t, t1, w1, ht, hst, by omega, ?_, hf1, hss, hlog⟩
  have hpos : 0 < t.length := List.length_pos.mpr ht
  simp [fill, maxConsecutiveEmptyReads, fillLoop, hread, hpos]

/-- With the delimiter in the buffer, `ReadSlice` takes the buffer up to it. -/
theorem ReadSlice_found (r2p : Pipe) (fuel : Nat) (u x : List Byte) (e : Option Error)
    (w : World) (hu : (0 : Byte) ∉ u) :
    ReadSlice r2p 0 (fuel + 1) { buf := u ++ 0 :: x, err := e } w =
      (Outcome.ret (u ++ [0], none), { buf := x, err := e }, w) := by
  have htake : List.take (u.length + 1) (u ++ 0 :: x) = u ++ [0] := by
    rw [List.take_append]
    simp
  have hdrop : List.drop (u.length + 1) (u ++ 0 :: x) = x := by
    rw [List.drop_append]
    simp
  simp [ReadSlice, indexByte_append_self hu, htake, hdrop]

/-- A prefix `t` of `s ++ 0 :: extra` stops inside `s` or goes past the delimiter. -/
theorem split_frame {s extra t t1 : List Byte} (h : s ++ 0 :: extra = t ++ t1) :
    (∃ c, s = t ++ c ∧ t1 = c ++ 0 :: extra) ∨
      (∃ x, t = s ++ 0 :: x ∧ extra = x ++ t1) := by
  rcases List.append_eq_append_iff.mp h with ⟨a, hta, h0⟩ | ⟨c, hsc, ht1⟩
  · cases a with
    | nil => exact Or.inl ⟨[], by simpa using hta.symm, by simpa using h0.symm⟩
    | cons y ys =>
      right
      simp only [List.cons_append, List.cons.injEq] at h0
      exact ⟨ys, by rw [hta, ← h0.1], h0.2⟩
  · exact Or.inl ⟨c, hsc, ht1⟩

/-- On a framed stream `ReadSlice` returns the line, or a full buffer of it. -/
theorem ReadSlice_framed (r2p : Pipe) (extra : List Byte) (rest : List ReadEvent) :
    ∀ (fuel : Nat) (b : Reader) (w : World) (s : List Byte),
      Readable r2p w → b.err = none → (0 : Byte) ∉ b.buf → b.buf.length ≤ defaultBufSize →
      (0 : Byte) ∉ s → Framed w (s ++ 0 :: extra) rest → s.length + 2 ≤ fuel →
      ∃ b1 w1, SameSide w w1 ∧
        ((ReadSlice r2p 0 fuel b w = (Outcome.ret (b.buf ++ s ++ [0], none), b1, w1) ∧
            (extra = [] → w1.pending = rest)) ∨
         (∃ k, b.buf.length + k = defaultBufSize ∧ k ≤ s.length ∧
            ReadSlice r2p 0 fuel b w =
              (Outcome.ret (b.buf ++ s.take k, some Error.ErrBufferFull),
                { buf := [], err := none }, w1) ∧
            Framed w1 (s.drop k ++ 0 :: extra) rest)) := by
  intro fuel
  induction fuel with
  | zero => intro b w s _ _ _ _ _ _ h; omega
  | succ f ih =>
    intro b w s hr he hb hlen hs hf hfuel
    have hidx := indexByte_none hb
    by_cases hfull : defaultBufSize ≤ b.buf.length
    · refine ⟨b, w, sameSide_refl w, Or.inr ⟨0, by omega, by omega, ?_, by simpa using hf⟩⟩
      simp [ReadSlice, hidx, he, hfull]
    · obtain ⟨t, t1, w1, ht, hst, hlen1, hfill, hf1, hss, _⟩ :=
        fill_framed hr hf (by simp) b (by omega)
      have hstep : ReadSlice r2p 0 (f + 1) b w =
          ReadSlice r2p 0 f { b with buf := b.buf ++ t } w1 := by
        simp [ReadSlice, hidx, he, hfull, hfill]
      rw [hstep]
      have htpos : 0 < t.length := List.length_pos.mpr ht
      rcases split_frame hst with ⟨a, hta, h0⟩ | ⟨x, hta, h0⟩
      · -- the read stops inside the payload: `s = t ++ a`
        have hsl : s.length = t.length + a.length := by rw [hta]; simp
        have hb1 : (0 : Byte) ∉ b.buf ++ t := by
          intro hm
          rcases List.mem_append.mp hm with hm | hm
          · exact hb hm
          · exact hs (by rw [hta]; simp [hm])
        have ha : (0 : Byte) ∉ a := fun hm => hs (by rw [hta]; simp [hm])
        obtain ⟨b1, w2, hss2, hres⟩ := ih { b with buf := b.buf ++ t } w1 a
          (sameSide_readable hss hr) he hb1 (by simpa using hlen1) ha (by rw [h0] at hf1; exact hf1)
          (by omega)
        refine ⟨b1, w2, sameSide_trans hss hss2, ?_⟩
        rcases hres with ⟨hres, hp⟩ | ⟨k, hk, hka, hres, hfr⟩
        · left
          refine ⟨?_, hp⟩
          rw [hres, hta]
          simp
        · right
          refine ⟨t.length + k, ?_, by omega, ?_, ?_⟩
          · simp at hk; omega
          · rw [hres, hta, List.take_append]
            simp
          · rw [hta, List.drop_append]
            exact hfr
      · -- the read reaches the delimiter
        obtain ⟨f1, rfl⟩ : ∃ f1, f = f1 + 1 := ⟨f - 1, by omega⟩
        have hb1 : (0 : Byte) ∉ b.buf ++ s := by
          intro hm
          rcases List.mem_append.mp hm with hm | hm
          · exact hb hm
          · exact hs hm
        refine ⟨{ buf := x, err := b.err }, w1, hss, Or.inl ⟨?_, ?_⟩⟩
        · rw [hta, ← List.append_assoc, ReadSlice_found r2p f1 (b.buf ++ s) x b.err w1 hb1]
        · intro hex
          rw [hex] at h0
          have ht1 : t1 = [] := (List.append_eq_nil.mp h0.symm).2
          rw [ht1] at hf1
          exact framed_nil hf1

/-- On a framed stream `collectFragments` gathers the whole line. -/
theorem collectFragments_framed (r2p : Pipe) (extra : List Byte) (rest : List ReadEvent)
    (F : Nat) :
    ∀ (n : Nat) (acc : List Byte) (w : World) (s : List Byte),
      Readable r2p w → (0 : Byte) ∉ s → Framed w (s ++ 0 :: extra) rest →
      s.length + 2 ≤ F → s.length + 1 ≤ n →
      ∃ b1 w1, SameSide w w1 ∧ (extra = [] → w1.pending = rest) ∧
        collectFragments r2p 0 F n acc NewReader w =
          (Outcome.ret (acc ++ s ++ [0], none), b1, w1) := by
  intro n
  induction n with
  | zero => intro acc w s _ _ _ _ h; omega
  | succ n ih =>
    intro acc w s hr hs hf hF hn
    obtain ⟨b1, w1, hss, hres⟩ :=
      ReadSlice_framed r2p extra rest F NewReader w s hr rfl (by simp [NewReader])
        (by simp [NewReader]) hs hf hF
    rcases hres with ⟨hres, hp⟩ | ⟨k, hk, hks, hres, hfr⟩
    · refine ⟨b1, w1, hss, hp, ?_⟩
      have hnil : NewReader.buf = [] := rfl
      rw [hnil, List.nil_append] at hres
      simp [collectFragments, hres]
    · have hk1 : k = defaultBufSize := by simpa [NewReader] using hk
      have hkpos : 0 < k := by rw [hk1]; decide
      have hdrop : (s.drop k).length = s.length - k := List.length_drop k s
      have hs1 : (0 : Byte) ∉ s.drop k := fun hm => hs (List.mem_of_mem_drop hm)
      obtain ⟨b2, w2, hss2, hp2, hres2⟩ := ih (acc ++ s.take k) w1 (s.drop k)
        (sameSide_readable hss hr) hs1 hfr (by omega) (by omega)
      refine ⟨b2, w2, sameSide_trans hss hss2, hp2, ?_⟩
      have hnil : NewReader.buf = [] := rfl
      rw [hnil, List.nil_append] at hres
      have : collectFragments r2p 0 F (n + 1) acc NewReader w =
          collectFragments r2p 0 F n (acc ++ s.take k) NewReader w1 := by
        simp [collectFragments, hres]
        rfl
      rw [this, hres2]
      simp [List.append_assoc]

theorem pendingSize_append (cs : List (List Byte)) (rest : List ReadEvent) :
    cs.flatten.length ≤ pendingSize (cs.map ReadEvent.chunk ++ rest) := by
  induction cs with
  | nil => simp
  | cons c cs ih =>
    have hcons : pendingSize (ReadEvent.chunk c :: (cs.map ReadEvent.chunk ++ rest)) =
        c.length + 1 + pendingSize (cs.map ReadEvent.chunk ++ rest) := rfl
    simp only [List.flatten_cons, List.length_append, List.map_cons, List.cons_append, hcons]
    omega

/-- On a framed stream `ReadString` returns the frame; when the frame ends the reads,
what follows it is left on the stream. -/
theorem ReadString_framed (r2p : Pipe) (w : World) (s extra : List Byte)
    (rest : List ReadEvent) (hr : Readable r2p w) (hs : (0 : Byte) ∉ s)
    (hf : Framed w (s ++ 0 :: extra) rest) :
    ∃ b1 w1, SameSide w w1 ∧ (extra = [] → w1.pending = rest) ∧
      ReadString r2p NewReader 0 w = (Outcome.ret (s ++ [0], none), b1, w1) := by
  have hsz : (s ++ 0 :: extra).length ≤ pendingSize w.pending := by
    obtain ⟨cs, hp, _, hj⟩ := hf
    rw [hp, ← hj]
    exact pendingSize_append cs rest
  simp only [List.length_append, List.length_cons] at hsz
  obtain ⟨b1, w1, hss, hp, hres⟩ := collectFragments_framed r2p extra rest w.fuel w.fuel [] w s
    hr hs hf (by unfold World.fuel; omega) (by unfold World.fuel; omega)
  exact ⟨b1, w1, hss, hp, by simpa [ReadString] using hres⟩

/-! ## Framing: the trimmed response -/

theorem TrimRight_terminator (p : List Byte) : TrimRight (p ++ [0]) [10, 0] = TrimRight p [10, 0] := by
  unfold TrimRight
  rw [List.rdropWhile_concat_pos]
  simp

theorem TrimRight_initial (s cutset : List Byte) : TrimRight s cutset <+: s :=
  List.rdropWhile_prefix _ s

/-- The trimmed string does not end with a byte of the cutset. -/
theorem TrimRight_getLast (s cutset : List Byte) (x : Byte) (hx : x ∈ cutset) :
    (TrimRight s cutset).getLast? ≠ some x := by
  intro h
  have hne : TrimRight s cutset ≠ [] := by
    intro h0
    rw [h0] at h
    simp at h
  have hl := List.rdropWhile_last_not (fun b => decide (b ∈ cutset)) s hne
  rw [List.getLast?_eq_getLast _ hne] at h
  have hx1 : (List.rdropWhile (fun b => decide (b ∈ cutset)) s).getLast hne = x :=
    Option.some.inj h
  rw [hx1] at hl
  simp [hx] at hl

/-- Without a terminator inside, what `TrimRight` removes is a run of newlines. -/
theorem TrimRight_newlines (p : List Byte) (hp : (0 : Byte) ∉ p) :
    ∃ k, p = TrimRight p [10, 0] ++ List.replicate k 10 := by
  induction p using List.reverseRecOn with
  | nil => exact ⟨0, by simp [TrimRight]⟩
  | append_singleton l x ih =>
    have hl : (0 : Byte) ∉ l := fun hm => hp (by simp [hm])
    have hx0 : x ≠ 0 := fun e => hp (by simp [e])
    obtain ⟨k, hk⟩ := ih hl
    by_cases hx : x = 10
    · refine ⟨k + 1, ?_⟩
      have : TrimRight (l ++ [x]) [10, 0] = TrimRight l [10, 0] := by
        unfold TrimRight
        rw [List.rdropWhile_concat_pos]
        simp [hx]
      rw [this, List.replicate_succ', ← List.append_assoc, ← hk, hx]
    · refine ⟨0, ?_⟩
      have : TrimRight (l ++ [x]) [10, 0] = l ++ [x] := by
        unfold TrimRight
        rw [List.rdropWhile_concat_neg]
        simp [hx, hx0]
      rw [this]
      simp

/-- The request write does not touch our end of the response stream. -/
theorem write_stdoutClosed (w : World) (h : Handle) (p : List Byte) :
    (w.write h p).2.stdoutClosed = w.stdoutClosed := by
  unfold World.write World.react
  repeat' split
  all_goals rfl

/-- After a successful request, a framed response is returned trimmed, the frame is
consumed and nothing else of the stream is. -/
theorem Cmd_framed (r2p : Pipe) (cmd p extra : List Byte) (w w1 : World) (n : Nat)
    (rest : List ReadEvent) (hcore : r2p.Core = none)
    (hw : Fprintln r2p cmd w = (Outcome.ret (n, none), w1))
    (hr : Readable r2p w1) (hf : Framed w1 (p ++ 0 :: extra) rest) (hp : (0 : Byte) ∉ p) :
    ∃ w2, SameSide w1 w2 ∧ (extra = [] → w2.pending = rest) ∧
      r2p.Cmd cmd w = (Outcome.ret (TrimRight p [10, 0], none), r2p, w2) := by
  obtain ⟨b1, w2, hss, hpend, hres⟩ := ReadString_framed r2p w1 p extra rest hr hp hf
  refine ⟨w2, hss, hpend, ?_⟩
  simp [Pipe.Cmd, hcore, hw, hres, TrimRight_terminator]

/-! ## Framing: what `Cmd` returns -/

/-- C1. On a subprocess Pipe (`Core` nil), when the request write succeeds and the
response stream then delivers a NUL-free payload `p` followed by a 0x00 byte (cut
into reads in any way, whatever comes after the terminator), `Cmd` returns
`TrimRight p "\n\x00"` and a nil error; that string is `p` without its run of
trailing newlines (nothing is removed on the left or inside), it does not end with a
newline and holds no 0x00. -/
theorem Cmd_returns_trimmed_payload (r2p : Pipe) (cmd p extra : List Byte) (w w1 : World)
    (n : Nat) (rest : List ReadEvent) (hcore : r2p.Core = none)
    (hw : Fprintln r2p cmd w = (Outcome.ret (n, none), w1))
    (hr : Readable r2p w1) (hf : Framed w1 (p ++ 0 :: extra) rest) (hp : (0 : Byte) ∉ p) :
    (r2p.Cmd cmd w).1 = Outcome.ret (TrimRight p [10, 0], none) ∧
      (∃ k, p = TrimRight p [10, 0] ++ List.replicate k 10) ∧
      (TrimRight p [10, 0]).getLast? ≠ some 10 ∧
      (0 : Byte) ∉ TrimRight p [10, 0] := by
  obtain ⟨w2, _, _, hres⟩ := Cmd_framed r2p cmd p extra w w1 n rest hcore hw hr hf hp
  refine ⟨by rw [hres], TrimRight_newlines p hp, TrimRight_getLast p _ 10 (by simp), ?_⟩
  exact fun hm => hp ((TrimRight_initial p _).subset hm)

/-- Framing round trip, lemma: stripping a run of newlines gives back what precedes it. -/
theorem TrimRight_run (q : List Byte) (k : Nat) (hq : (0 : Byte) ∉ q)
    (hlast : q.getLast? ≠ some 10) : TrimRight (q ++ List.replicate k 10) [10, 0] = q := by
  induction k with
  | zero =>
    simp only [List.replicate_zero, List.append_nil]
    induction q using List.reverseRecOn with
    | nil => simp [TrimRight]
    | append_singleton l x _ =>
      have hx0 : x ≠ 0 := fun e => hq (by simp [e])
      have hx10 : x ≠ 10 := fun e => hlast (by simp [e])
      unfold TrimRight
      rw [List.rdropWhile_concat_neg]
      simp [hx0, hx10]
  | succ k ih =>
    rw [List.replicate_succ', ← List.append_assoc]
    unfold TrimRight at *
    rw [List.rdropWhile_concat_pos]
    · exact ih
    · simp

/-- Witness of C1: the payload "id=7\n\n" arrives in three reads. -/
theorem Cmd_returns_trimmed_payload_witness :
    (demoPipe.Cmd (ascii "ps") (answering [[ascii "id", ascii "=7\n", ascii "\n\x00"]])).1 =
        Outcome.ret (TrimRight (ascii "id=7\n\n") [10, 0], none) ∧
      (∃ k, ascii "id=7\n\n" = TrimRight (ascii "id=7\n\n") [10, 0] ++ List.replicate k 10) ∧
      (TrimRight (ascii "id=7\n\n") [10, 0]).getLast? ≠ some 10 ∧
      (0 : Byte) ∉ TrimRight (ascii "id=7\n\n") [10, 0] :=
  Cmd_returns_trimmed_payload demoPipe (ascii "ps") (ascii "id=7\n\n") []
    (answering [[ascii "id", ascii "=7\n", ascii "\n\x00"]])
    (Fprintln demoPipe (ascii "ps") (answering [[ascii "id", ascii "=7\n", ascii "\n\x00"]])).2
    3 [] rfl (by decide) ⟨⟨Handle.childStdout, rfl, rfl⟩, rfl⟩
    ⟨[ascii "id", ascii "=7\n", ascii "\n\x00"], by decide, by decide, by decide⟩ (by decide)

/-- C2, as the claim states it, fails: the payload "a\n\n" is "a\n" followed by one
newline, and `Cmd` returns "a", not "a\n". -/
theorem Cmd_one_newline_counterexample :
    (0 : Byte) ∉ ascii "a\n\n" ∧ ascii "a\n\n" = ascii "a\n" ++ ascii "\n" ∧
      (demoPipe.Cmd (ascii "ps") (answering [[ascii "a\n\n\x00"]])).1 =
        Outcome.ret (ascii "a", none) ∧
      ascii "a" ≠ ascii "a\n" := by
  decide

/-- C2, amended. On a subprocess Pipe, when the request write succeeds and the response
stream delivers a NUL-free payload `p` and the terminator, `Cmd` returns `p` with the
terminator and every trailing newline stripped, nothing else: if `p` is `q` followed
by `k` newlines (`k` may be 0) and `q` does not end with a newline, the result is `q`. -/
theorem Cmd_round_trip (r2p : Pipe) (cmd p q extra : List Byte) (k : Nat) (w w1 : World)
    (n : Nat) (rest : List ReadEvent) (hcore : r2p.Core = none)
    (hw : Fprintln r2p cmd w = (Outcome.ret (n, none), w1))
    (hr : Readable r2p w1) (hf : Framed w1 (p ++ 0 :: extra) rest) (hp : (0 : Byte) ∉ p)
    (hq : p = q ++ List.replicate k 10) (hlast : q.getLast? ≠ some 10) :
    (r2p.Cmd cmd w).1 = Outcome.ret (q, none) := by
  obtain ⟨w2, _, _, hres⟩ := Cmd_framed r2p cmd p extra w w1 n rest hcore hw hr hf hp
  have hq0 : (0 : Byte) ∉ q := fun hm => hp (by rw [hq]; simp [hm])
  rw [hres, hq, TrimRight_run q k hq0 hlast]

/-- Witness of C2 (the test `TestCmd`): the frame "Hello World\n\x00" gives "Hello World". -/
theorem Cmd_round_trip_witness :
    (demoPipe.Cmd (ascii "ps") (answering [[ascii "Hello World\n\x00"]])).1 =
      Outcome.ret (ascii "Hello World", none) :=
  Cmd_round_trip demoPipe (ascii "ps") (ascii "Hello World\n") (ascii "Hello World") [] 1
    (answering [[ascii "Hello World\n\x00"]])
    (Fprintln demoPipe (ascii "ps") (answering [[ascii "Hello World\n\x00"]])).2
    3 [] rfl (by decide) ⟨⟨Handle.childStdout, rfl, rfl⟩, rfl⟩
    ⟨[ascii "Hello World\n\x00"], by decide, by decide, by decide⟩ (by decide) (by decide)
    (by decide)

/-! ## Framing: a stream that fails before the terminator -/

/-- One `Read` on a bad stream: an error that is not `ErrBufferFull`, or NUL-free data
taken off the queue, the stream staying bad. -/
theorem read_bad {r2p : Pipe} {w : World} (hb : Bad r2p w) (cap : Nat) (hcap : 0 < cap) :
    ∃ w1, SameSide w w1 ∧
      ((∃ e, e ≠ Error.ErrBufferFull ∧ r2p.Read cap w = (Outcome.ret (ReadResult.error e), w1)) ∨
       (∃ t, (0 : Byte) ∉ t ∧ t.length ≤ cap ∧
          r2p.Read cap w = (Outcome.ret (ReadResult.data t), w1) ∧ Bad r2p w1 ∧
          pendingSize w1.pending + t.length + (if t = [] then 1 else 0) ≤
            pendingSize w.pending)) := by
  obtain ⟨h, hh, hcase⟩ := hb
  by_cases hv : h.valid = false
  · exact ⟨{ w with log := w.log ++ [Effect.read []] }, rfl, Or.inl ⟨Error.ErrInvalid, by decide,
      by simp [Pipe.Read, hh, World.read, hv]⟩⟩
  by_cases hc : w.stdoutClosed = true
  · exact ⟨{ w with log := w.log ++ [Effect.read []] }, rfl, Or.inl ⟨Error.ErrClosed, by decide,
      by simp [Pipe.Read, hh, World.read, hv, hc]⟩⟩
  have hd : Doomed w := by
    rcases hcase with h1 | h1 | h1
    · exact absurd h1 hv
    · exact absurd h1 hc
    · exact h1
  obtain ⟨cs, stop, rest, hp, hcs, hstop⟩ := hd
  have hv1 : h.valid = true := by simpa using hv
  have hc1 : w.stdoutClosed = false := by simpa using hc
  cases cs with
  | nil =>
    simp only [List.map_nil, List.nil_append] at hp
    cases stop with
    | chunk bs => simp [ReadEvent.isStop] at hstop
    | fail errno =>
      exact ⟨{ w with pending := rest, log := w.log ++ [Effect.read []] }, rfl,
        Or.inl ⟨Error.sys errno, by simp, by simp [Pipe.Read, hh, World.read, hv1, hc1, hp]⟩⟩
    | eof =>
      exact ⟨{ w with log := w.log ++ [Effect.read []] }, rfl,
        Or.inl ⟨Error.EOF, by decide, by simp [Pipe.Read, hh, World.read, hv1, hc1, hp]⟩⟩
  | cons c cs =>
    simp only [List.map_cons, List.cons_append] at hp
    have hc0 : (0 : Byte) ∉ c := hcs c (by simp)
    have hcs1 : ∀ x ∈ cs, (0 : Byte) ∉ x := fun x hx => hcs x (by simp [hx])
    have hsz : pendingSize w.pending =
        c.length + 1 + pendingSize (cs.map ReadEvent.chunk ++ stop :: rest) := by
      rw [hp]; rfl
    by_cases hle : c.length ≤ cap
    · refine ⟨{ w with pending := cs.map ReadEvent.chunk ++ stop :: rest, log := w.log ++ [Effect.read c] }, rfl, Or.inr ⟨c, hc0, hle, ?_, ?_, ?_⟩⟩
      · simp [Pipe.Read, hh, World.read, hv1, hc1, hp, hle]
      · exact ⟨h, hh, Or.inr (Or.inr ⟨cs, stop, rest, rfl, hcs1, hstop⟩)⟩
      · rw [hsz]
        show pendingSize (cs.map ReadEvent.chunk ++ stop :: rest) + c.length + _ ≤ _
        split <;> omega
    · have hlt : cap < c.length := Nat.lt_of_not_le hle
      have htake : (c.take cap).length = cap := by rw [List.length_take]; omega
      have hne : c.take cap ≠ [] := by
        intro h0
        rw [h0] at htake
        simp at htake
        omega
      refine ⟨{ w with pending := ReadEvent.chunk (c.drop cap) :: (cs.map ReadEvent.chunk ++ stop :: rest), log := w.log ++ [Effect.read (c.take cap)] }, rfl, Or.inr ⟨c.take cap, fun hm => hc0 (List.mem_of_mem_take hm), by omega, ?_, ?_, ?_⟩⟩
      · simp [Pipe.Read, hh, World.read, hv1, hc1, hp, hle]
      · refine ⟨h, hh, Or.inr (Or.inr ⟨c.drop cap :: cs, stop, rest, rfl, ?_, hstop⟩)⟩
        intro x hx
        rcases List.mem_cons.mp hx with hx | hx
        · rw [hx]
          exact fun hm => hc0 (List.mem_of_mem_drop hm)
        · exact hcs1 x hx
      · rw [hsz, if_neg hne, htake]
        show (c.drop cap).length + 1 + pendingSize (cs.map ReadEvent.chunk ++ stop :: rest) +
          cap + 0 ≤ _
        rw [List.length_drop]
        omega

/-- On a bad stream `fill` records an error or appends NUL-free data; it always returns. -/
theorem fillLoop_bad (r2p : Pipe) :
    ∀ (i : Nat) (b : Reader) (w : World), Bad r2p w → b.buf.length < defaultBufSize →
      ∃ b1 w1, fillLoop r2p i b w = (Outcome.ret b1, w1) ∧ SameSide w w1 ∧
        ((∃ e, e ≠ Error.ErrBufferFull ∧ b1 = { b with err := some e }) ∨
         (∃ t, t ≠ [] ∧ (0 : Byte) ∉ t ∧ b.buf.length + t.length ≤ defaultBufSize ∧
            b1 = { b with buf := b.buf ++ t } ∧ Bad r2p w1 ∧
            pendingSize w1.pending + t.length ≤ pendingSize w.pending)) := by
  intro i
  induction i with
  | zero =>
    intro b w _ _
    exact ⟨_, w, rfl, sameSide_refl w, Or.inl ⟨Error.ErrNoProgress, by decide, rfl⟩⟩
  | succ i ih =>
    intro b w hb hlen
    obtain ⟨w1, hss, hread⟩ := read_bad hb (defaultBufSize - b.buf.length) (by omega)
    rcases hread with ⟨e, he, hread⟩ | ⟨t, ht0, htl, hread, hb1, hsz⟩
    · exact ⟨_, w1, by simp [fillLoop, hread], hss, Or.inl ⟨e, he, rfl⟩⟩
    · by_cases hnil : t = []
      · subst hnil
        obtain ⟨b2, w2, hres, hss2, hcase⟩ := ih b w1 hb1 hlen
        refine ⟨b2, w2, by simp [fillLoop, hread, hres], sameSide_trans hss hss2, ?_⟩
        rcases hcase with h1 | ⟨t, h1, h2, h3, h4, h5, h6⟩
        · exact Or.inl h1
        · refine Or.inr ⟨t, h1, h2, h3, h4, h5, ?_⟩
          simp only [List.length_nil, if_true] at hsz
          omega
      · have hpos : 0 < t.length := List.length_pos.mpr hnil
        refine ⟨_, w1, by simp [fillLoop, hread, hpos], hss, Or.inr ⟨t, hnil, ht0, by omega, rfl,
          hb1, ?_⟩⟩
        rw [if_neg hnil] at hsz
        omega

/-- With an error pending and no delimiter buffered, `ReadSlice` returns that error. -/
theorem ReadSlice_pending (r2p : Pipe) (fuel : Nat) (b : Reader) (w : World) (e : Error)
    (he : b.err = some e) (hb : (0 : Byte) ∉ b.buf) :
    ReadSlice r2p 0 (fuel + 1) b w =
      (Outcome.ret (b.buf, some e), { buf := [], err := none }, w) := by
  simp [ReadSlice, indexByte_none hb, he]

/-- On a bad stream `ReadSlice` returns an error; when that is `ErrBufferFull`, a full
buffer went by and the stream is still bad. -/
theorem ReadSlice_bad (r2p : Pipe) :
    ∀ (fuel : Nat) (b : Reader) (w : World),
      ((b.err = none ∧ Bad r2p w) ∨ (∃ e, b.err = some e ∧ e ≠ Error.ErrBufferFull)) →
      (0 : Byte) ∉ b.buf → b.buf.length ≤ defaultBufSize → pendingSize w.pending + 2 ≤ fuel →
      ∃ frag e b1 w1, ReadSlice r2p 0 fuel b w = (Outcome.ret (frag, some e), b1, w1) ∧
        SameSide w w1 ∧
        (e = Error.ErrBufferFull → b1 = { buf := [], err := none } ∧ Bad r2p w1 ∧
          pendingSize w1.pending + defaultBufSize ≤ pendingSize w.pending + b.buf.length) := by
  intro fuel
  induction fuel with
  | zero => intro b w _ _ _ h; omega
  | succ f ih =>
    intro b w hcase hb hlen hfuel
    rcases hcase with ⟨he, hbad⟩ | ⟨e, he, hne⟩
    · have hidx := indexByte_none hb
      by_cases hfull : defaultBufSize ≤ b.buf.length
      · refine ⟨b.buf, Error.ErrBufferFull, { buf := [], err := none }, w, ?_, sameSide_refl w,
          fun _ => ⟨rfl, hbad, by omega⟩⟩
        simp [ReadSlice, hidx, he, hfull]
      · obtain ⟨b1, w1, hfill, hss, hres⟩ := fillLoop_bad r2p maxConsecutiveEmptyReads b w hbad
          (by omega)
        have hstep : ReadSlice r2p 0 (f + 1) b w = ReadSlice r2p 0 f b1 w1 := by
          simp [ReadSlice, hidx, he, hfull, fill, hfill]
        obtain ⟨f1, rfl⟩ : ∃ f1, f = f1 + 1 := ⟨f - 1, by omega⟩
        rcases hres with ⟨e, hne, hb1⟩ | ⟨t, _, ht0, htl, hb1, hbad1, hsz⟩
        · refine ⟨b.buf, e, { buf := [], err := none }, w1, ?_, hss, fun h => absurd h hne⟩
          rw [hstep, ReadSlice_pending r2p f1 b1 w1 e (by rw [hb1]) (by rw [hb1]; exact hb), hb1]
        · have hb0 : (0 : Byte) ∉ b1.buf := by
            rw [hb1]
            intro hm
            rcases List.mem_append.mp hm with hm | hm
            · exact hb hm
            · exact ht0 hm
          have hl1 : b1.buf.length = b.buf.length + t.length := by rw [hb1]; simp
          obtain ⟨frag, e, b2, w2, hres2, hss2, himp⟩ := ih b1 w1
            (Or.inl ⟨by rw [hb1]; exact he, hbad1⟩) hb0 (by omega)
            (by have := List.length_pos.mpr ‹t ≠ []›; omega)
          refine ⟨frag, e, b2, w2, by rw [hstep, hres2], sameSide_trans hss hss2, fun h => ?_⟩
          obtain ⟨h1, h2, h3⟩ := himp h
          exact ⟨h1, h2, by omega⟩
    · exact ⟨b.buf, e, { buf := [], err := none }, w, ReadSlice_pending r2p f b w e he hb,
        sameSide_refl w, fun h => absurd h hne⟩

/-- On a bad stream `collectFragments` returns a non-nil error. -/
theorem collectFragments_bad (r2p : Pipe) (F : Nat) :
    ∀ (n : Nat) (acc : List Byte) (w : World), Bad r2p w →
      pendingSize w.pending + 2 ≤ F → pendingSize w.pending + 1 ≤ n →
      ∃ buf e b1 w1,
        collectFragments r2p 0 F n acc NewReader w = (Outcome.ret (buf, some e), b1, w1) := by
  intro n
  induction n with
  | zero => intro acc w _ _ h; omega
  | succ n ih =>
    intro acc w hbad hF hn
    obtain ⟨frag, e, b1, w1, hres, _, himp⟩ :=
      ReadSlice_bad r2p F NewReader w (Or.inl ⟨rfl, hbad⟩) (by simp [NewReader])
        (by simp [NewReader]) hF
    by_cases he : e = Error.ErrBufferFull
    · obtain ⟨hb1, hbad1, hsz⟩ := himp he
      have h4 : 0 < defaultBufSize := by decide
      have h5 : NewReader.buf.length = 0 := rfl
      obtain ⟨buf, e2, b2, w2, hres2⟩ := ih (acc ++ frag) w1 hbad1 (by omega) (by omega)
      refine ⟨buf, e2, b2, w2, ?_⟩
      have : collectFragments r2p 0 F (n + 1) acc NewReader w =
          collectFragments r2p 0 F n (acc ++ frag) NewReader w1 := by
        simp [collectFragments, hres, he, hb1]
        rfl
      rw [this, hres2]
    · exact ⟨acc ++ frag, e, b1, w1, by simp [collectFragments, hres, he]⟩

/-- On a bad stream `ReadString` returns a non-nil error. -/
theorem ReadString_bad (r2p : Pipe) (w : World) (hbad : Bad r2p w) :
    ∃ buf e b1 w1, ReadString r2p NewReader 0 w = (Outcome.ret (buf, some e), b1, w1) :=
  collectFragments_bad r2p w.fuel w.fuel [] w hbad (by unfold World.fuel; omega)
    (by unfold World.fuel; omega)

/-- C3. On a subprocess Pipe (`Core` nil, both streams bound), when the response
stream, as it stands once the request is written, ends or fails before any 0x00 byte,
`Cmd` returns the empty string and a non-nil error, whatever was read before. -/
theorem Cmd_no_partial_response (r2p : Pipe) (cmd : List Byte) (w : World)
    (hcore : r2p.Core = none) (hin : r2p.stdin ≠ none) (hout : r2p.stdout ≠ none)
    (hd : Doomed (Fprintln r2p cmd w).2) :
    ∃ e, (r2p.Cmd cmd w).1 = Outcome.ret ([], some e) := by
  obtain ⟨hi, hhi⟩ := Option.ne_none_iff_exists'.mp hin
  obtain ⟨ho, hho⟩ := Option.ne_none_iff_exists'.mp hout
  have hF : Fprintln r2p cmd w = (Outcome.ret (w.write hi (cmd ++ [10])).1, (w.write hi (cmd ++ [10])).2) := by
    simp [Fprintln, Pipe.Write, hhi]
  rw [hF] at hd
  obtain ⟨buf, e, b1, w1, hres⟩ := ReadString_bad r2p _ ⟨ho, hho, Or.inr (Or.inr hd)⟩
  rcases hwr : (w.write hi (cmd ++ [10])).1 with ⟨n, _ | e1⟩
  · refine ⟨e, ?_⟩
    simp [Pipe.Cmd, hcore, hF, hwr, hres]
  · refine ⟨e1, ?_⟩
    simp [Pipe.Cmd, hcore, hF, hwr]

/-- Witness of C3: seven bytes arrive, then the stream ends. -/
theorem Cmd_no_partial_response_witness :
    ∃ e, (demoPipe.Cmd (ascii "ps")
      { World.init with script := [[ReadEvent.chunk (ascii "partial"), ReadEvent.eof]] }).1 =
        Outcome.ret ([], some e) :=
  Cmd_no_partial_response demoPipe (ascii "ps")
    { World.init with script := [[ReadEvent.chunk (ascii "partial"), ReadEvent.eof]] }
    rfl (by decide) (by decide) ⟨[ascii "partial"], ReadEvent.eof, [], by decide, by decide, rfl⟩

/-! ## Serial commands -/

/-- A request on a writable stream is taken whole, and the producer reacts. -/
theorem Fprintln_writable (r2p : Pipe) (cmd : List Byte) (w : World) (hw : Writable r2p w) :
    Fprintln r2p cmd w =
      (Outcome.ret ((cmd ++ [10]).length, none),
        { w with written := w.written ++ (cmd ++ [10]),
                 log := w.log ++ [Effect.write (cmd ++ [10]) (cmd ++ [10]).length] }.react) := by
  obtain ⟨⟨h, hh, hv⟩, hc, hf⟩ := hw
  simp [Fprintln, Pipe.Write, hh, World.write, hv, hc, hf]

/-- C4. Commands c1..cN issued serially on one subprocess Pipe, the request stream
taking every write, the response stream empty at the start, and the producer
answering the i-th request, and only it, with the i-th frame (NUL-free payload
`f_i`, then 0x00, cut into reads in any way): the calls return, in order,
`TrimRight f_i "\n\x00"` with a nil error; each result is a function of its own
frame alone. -/
theorem CmdAll_in_order (r2p : Pipe) (hcore : r2p.Core = none) (fs : List (List Byte))
    (css : List (List (List Byte))) (hframes : List.Forall₂ Delivers fs css) :
    ∀ (cmds : List (List Byte)) (w : World), cmds.length = fs.length →
      Writable r2p w → Readable r2p w → w.pending = [] →
      w.script = css.map (List.map ReadEvent.chunk) →
      (r2p.CmdAll cmds w).1 = fs.map (fun f => Outcome.ret (TrimRight f [10, 0], none)) := by
  induction hframes with
  | nil =>
    intro cmds w hlen _ _ _ _
    have : cmds = [] := List.length_eq_zero.mp (by simpa using hlen)
    subst this
    rfl
  | @cons f cs fs css hd _ ih =>
    intro cmds w hlen hw hr hq hs
    cases cmds with
    | nil => simp at hlen
    | cons c cmds =>
      have hF := Fprintln_writable r2p c w hw
      have hw1p : ({ w with written := w.written ++ (c ++ [10]), log := w.log ++ [Effect.write (c ++ [10]) (c ++ [10]).length] }.react).pending =
          cs.map ReadEvent.chunk := by
        simp [World.react, hs, hq]
      obtain ⟨w2, hss, hp2', hres⟩ := Cmd_framed r2p c f [] w _ _ [] hcore hF
        ⟨hr.1, by simp [World.react, hs, hr.2]⟩ ⟨cs, by simpa using hw1p, hd.2.2, hd.1⟩ hd.2.1
      have hw2 : Writable r2p w2 := by
        unfold SameSide at hss
        refine ⟨hw.1, ?_, ?_⟩
        · rw [hss]; simp [World.react, hs, hw.2.1]
        · rw [hss]; simp [World.react, hs, hw.2.2]
      have hr2 : Readable r2p w2 := by
        unfold SameSide at hss
        refine ⟨hr.1, ?_⟩
        rw [hss]; simp [World.react, hs, hr.2]
      have hs2 : w2.script = css.map (List.map ReadEvent.chunk) := by
        unfold SameSide at hss
        rw [hss]; simp [World.react, hs]
      have := ih cmds w2 (by simpa using hlen) hw2 hr2 (hp2' rfl) hs2
      simp [Pipe.CmdAll, hres, this]

/-- Witness of C4 (the test `TestCmd`): "w Hello World" is answered by an empty frame,
"ps" by "Hello World\n" and the terminator, in two reads. -/
theorem CmdAll_in_order_witness :
    (demoPipe.CmdAll [ascii "w Hello World", ascii "ps"]
        (answering [[[0]], [ascii "Hello ", ascii "World\n\x00"]])).1 =
      [[], ascii "Hello World\n"].map (fun f => Outcome.ret (TrimRight f [10, 0], none)) :=
  CmdAll_in_order demoPipe rfl [[], ascii "Hello World\n"]
    [[[0]], [ascii "Hello ", ascii "World\n\x00"]]
    (List.Forall₂.cons ⟨by decide, by decide, by decide⟩
      (List.Forall₂.cons ⟨by decide, by decide, by decide⟩ List.Forall₂.nil))
    [ascii "w Hello World", ascii "ps"] (answering [[[0]], [ascii "Hello ", ascii "World\n\x00"]])
    rfl ⟨⟨Handle.childStdin, rfl, rfl⟩, rfl, rfl⟩ ⟨⟨Handle.childStdout, rfl, rfl⟩, rfl⟩ rfl rfl

/-! ## Lifecycle -/

/-- `Cmd` never changes the Pipe. -/
theorem Cmd_pipe (r2p : Pipe) (cmd : List Byte) (w : World) : (r2p.Cmd cmd w).2.1 = r2p := by
  unfold Pipe.Cmd
  split
  · split
    · rename_i d _
      cases d
      · simp only [CmdDelegate.call, Pipe.NativeCmd]
        split <;> rfl
      · rfl
    · rfl
  · split
    · rfl
    · split <;> rfl
    · rfl
    · rfl

/-- Shape of the Pipe `newPipeFd` returns. -/
theorem newPipeFd_shape (env : Env) (w w1 : World) (r2p : Pipe)
    (h : newPipeFd env w = (Outcome.ret (some r2p, none), w1)) :
    r2p.File = [] ∧ r2p.r2cmd = none ∧ r2p.Core = none ∧ r2p.cmd = none ∧ r2p.close = none ∧
      r2p.stdin ≠ none ∧ r2p.stdout ≠ none := by
  unfold newPipeFd at h
  split at h
  · simp at h
  · split at h
    · simp at h
    · split at h
      · simp at h
      · simp only [Prod.mk.injEq, Outcome.ret.injEq, Option.some.injEq, and_true] at h
        rw [← h.1]
        simp

/-- Shape of the Pipe `newPipeCmd` returns. -/
theorem newPipeCmd_shape (env : Env) (file : List Byte) (w w1 : World) (r2p : Pipe)
    (h : newPipeCmd env file w = (Outcome.ret (some r2p, none), w1)) :
    r2p = { File := file, r2cmd := some { args := [ascii "radare2", ascii "-q0", file] },
            stdin := some Handle.childStdin, stdout := some Handle.childStdout,
            stderr := some Handle.childStderr, Core := none, cmd := none, close := none } := by
  unfold newPipeCmd at h
  simp only at h
  split at h
  · simp at h
  · split at h
    · simp at h
    · split at h
      · simp at h
      · split at h
        · simp at h
        · split at h
          · simp at h
          · simp only [Prod.mk.injEq, Outcome.ret.injEq, Option.some.injEq, and_true] at h
            exact h.1.symm
          · simp at h
          · simp at h

/-- Shape of the Pipe `NewNativePipe` returns. -/
theorem NewNativePipe_shape (env : Env) (file : List Byte) (w w1 : World) (r2p : Pipe)
    (h : NewNativePipe env file w = (Outcome.ret (some r2p, none), w1)) :
    r2p = { File := file, r2cmd := none, stdin := none, stdout := none, stderr := none,
            Core := env.newCore, cmd := some CmdDelegate.native,
            close := some CloseDelegate.native } := by
  unfold NewNativePipe at h
  split at h
  · simp at h
  · split at h
    · simp at h
    · simp only at h
      split at h
      · split at h
        · simp only [Prod.mk.injEq, Outcome.ret.injEq, Option.some.injEq, and_true] at h
          exact h.1.symm
        · simp at h
        · simp at h
      · simp only [Prod.mk.injEq, Outcome.ret.injEq, Option.some.injEq, and_true] at h
        exact h.1.symm

/-- Shape of the Pipe `NewApiPipe` returns. -/
theorem NewApiPipe_shape (env : Env) (file : List Byte) (w w1 : World) (r2p : Pipe)
    (h : NewApiPipe env file w = (Outcome.ret (some r2p, none), w1)) :
    r2p = { File := file, r2cmd := none, stdin := none, stdout := none, stderr := none,
            Core := env.newCore, cmd := some CmdDelegate.api,
            close := some CloseDelegate.api } := by
  unfold NewApiPipe at h
  simp only at h
  split at h
  · simp only [Prod.mk.injEq, Outcome.ret.injEq, Option.some.injEq, and_true] at h
    exact h.1.symm
  · simp only [Prod.mk.injEq, Outcome.ret.injEq, Option.some.injEq, and_true] at h
    exact h.1.symm

theorem Close_eq_closeWith (r2p : Pipe) (w : World) :
    r2p.Close w = r2p.closeWith (ascii "q") w := rfl

theorem ForceClose_eq_closeWith (r2p : Pipe) (w : World) :
    r2p.ForceClose w = r2p.closeWith (ascii "q!") w := rfl

/-- On a closed request stream the quit command fails and `closeWith` stops before `Wait`. -/
theorem closeWith_closed (quit : List Byte) (r2p : Pipe) (w : World) (hclose : r2p.close = none)
    (hfile : r2p.File ≠ []) (hcore : r2p.Core = none) (hin : r2p.stdin = some Handle.childStdin)
    (hc : w.stdinClosed = true) :
    r2p.closeWith quit w =
      (Outcome.ret (some Error.ErrClosed), r2p,
        { w with log := w.log ++ [Effect.write (quit ++ [10]) 0] }) := by
  simp [Pipe.closeWith, hclose, hfile, Pipe.Cmd, hcore, Fprintln, Pipe.Write, hin, World.write,
    Handle.valid, hc]

/-- When `closeWith` returns nil on a spawned Pipe, the child was reaped in that call and
the parent's ends of the pipes are closed. -/
theorem closeWith_nil (quit : List Byte) (r2p : Pipe) (w : World) (hclose : r2p.close = none)
    (hfile : r2p.File ≠ []) (h : (r2p.closeWith quit w).1 = Outcome.ret none) :
    (r2p.closeWith quit w).2.1 = r2p ∧ (r2p.closeWith quit w).2.2.stdinClosed = true ∧
      (r2p.closeWith quit w).2.2.stdoutClosed = true ∧
      (r2p.closeWith quit w).2.2.waited = true := by
  have hp := Cmd_pipe r2p quit w
  unfold Pipe.closeWith at h ⊢
  simp only [hclose, hfile, if_false] at h ⊢
  rcases hc : r2p.Cmd quit w with ⟨o, p1, w1⟩
  rw [hc] at h hp
  simp only at hp
  subst hp
  rcases o with ⟨s, _ | e⟩ | _ | _
  · simp only [Pipe.Wait] at h ⊢
    cases hr : p1.r2cmd with
    | none => simp [hr] at h
    | some c =>
      simp only [hr] at h ⊢
      unfold World.wait at h ⊢
      by_cases hs : w1.started = false
      · simp [hs] at h
      · by_cases hwt : w1.waited = true
        · simp [hs, hwt] at h
        · simp [hs, hwt]
  · simp at h
  · simp at h
  · simp at h

/-- C5, amended. A Pipe from a successful constructor, closed twice in any world `w`.
Inherited descriptors: both calls return nil and touch nothing (no write, no wait).
Native core whose free function can be called (`NewApiPipe`, which links it;
`NewNativePipe` when the function variable `rCoreFree` is set in `w`): both calls
return nil; the first frees the core and clears `Core`, the second calls the free
function on the nil handle; neither writes nor waits.  Spawned process: when the
first call returned nil, the second returns the error of the write on the closed
request stream (no byte reaches it) and does not wait on the process again. -/
theorem Close_twice (env : Env) (file : List Byte) (w0 w1 w : World) (r2p : Pipe) :
    (NewPipe env [] w0 = (Outcome.ret (some r2p, none), w1) →
        r2p.Close w = (Outcome.ret none, r2p, w) ∧
        (r2p.Close w).2.1.Close (r2p.Close w).2.2 = (Outcome.ret none, r2p, w)) ∧
    (NewApiPipe env file w0 = (Outcome.ret (some r2p, none), w1) ∨
      (NewNativePipe env file w0 = (Outcome.ret (some r2p, none), w1) ∧
        w.rCoreFree = true) →
        r2p.Close w = (Outcome.ret none, { r2p with Core := none },
          { w with log := w.log ++ [Effect.coreFree r2p.Core] }) ∧
        (r2p.Close w).2.1.Close (r2p.Close w).2.2 = (Outcome.ret none, { r2p with Core := none },
          { w with log := w.log ++ [Effect.coreFree r2p.Core, Effect.coreFree none] })) ∧
    (file ≠ [] → NewPipe env file w0 = (Outcome.ret (some r2p, none), w1) →
      (r2p.Close w).1 = Outcome.ret none →
        (r2p.Close w).2.1.Close (r2p.Close w).2.2 =
          (Outcome.ret (some Error.ErrClosed), r2p,
            { (r2p.Close w).2.2 with
              log := (r2p.Close w).2.2.log ++ [Effect.write (ascii "q" ++ [10]) 0] })) := by
  refine ⟨fun h => ?_, fun h => ?_, fun hf h hnil => ?_⟩
  · obtain ⟨hF, _, _, _, hcl, _, _⟩ := newPipeFd_shape env w0 w1 r2p (by simpa [NewPipe] using h)
    have h1 : r2p.Close w = (Outcome.ret none, r2p, w) := by
      simp [Pipe.Close, hcl, hF]
    exact ⟨h1, by rw [h1]; exact h1⟩
  · rcases h with h | ⟨h, hfree⟩
    · rw [NewApiPipe_shape env file w0 w1 r2p h]
      simp [Pipe.Close, CloseDelegate.call, Pipe.ApiClose, World.coreFree]
    · rw [NewNativePipe_shape env file w0 w1 r2p h]
      simp [Pipe.Close, CloseDelegate.call, Pipe.NativeClose, World.coreFree, hfree]
  · have hshape := newPipeCmd_shape env file w0 w1 r2p (by simpa [NewPipe, hf] using h)
    have hcl : r2p.close = none := by rw [hshape]
    have hfile : r2p.File ≠ [] := by rw [hshape]; exact hf
    rw [Close_eq_closeWith] at hnil ⊢
    obtain ⟨h1, h2, _, _⟩ := closeWith_nil (ascii "q") r2p w hcl hfile hnil
    rw [Close_eq_closeWith, h1]
    exact closeWith_closed (ascii "q") r2p _ hcl hfile (by rw [hshape]) (by rw [hshape]) h2

/-- C5, as the claim states it, fails on a spawned Pipe: `NewPipe` succeeds, the first
`Close` returns nil, the second returns an error. -/
theorem Close_twice_counterexample :
    (NewPipe demoEnv (ascii "malloc://256") demoChild).1 = Outcome.ret (some demoPipe, none) ∧
      (demoPipe.Close (NewPipe demoEnv (ascii "malloc://256") demoChild).2).1 =
        Outcome.ret none ∧
      ((demoPipe.Close (NewPipe demoEnv (ascii "malloc://256") demoChild).2).2.1.Close
          (demoPipe.Close (NewPipe demoEnv (ascii "malloc://256") demoChild).2).2.2).1 =
        Outcome.ret (some Error.ErrClosed) := by
  decide

/-- Witness of C5: the three kinds of Pipe, each from its constructor, closed twice. -/
theorem Close_twice_witness :
    (demoFdPipe.Close demoChild = (Outcome.ret none, demoFdPipe, demoChild) ∧
      (demoFdPipe.Close demoChild).2.1.Close (demoFdPipe.Close demoChild).2.2 =
        (Outcome.ret none, demoFdPipe, demoChild)) ∧
    (demoNativePipe.Close demoLoaded =
        (Outcome.ret none, { demoNativePipe with Core := none },
          { demoLoaded with log := demoLoaded.log ++ [Effect.coreFree demoNativePipe.Core] }) ∧
      (demoNativePipe.Close demoLoaded).2.1.Close (demoNativePipe.Close demoLoaded).2.2 =
        (Outcome.ret none, { demoNativePipe with Core := none },
          { demoLoaded with
            log := demoLoaded.log ++ [Effect.coreFree demoNativePipe.Core, Effect.coreFree none] })) ∧
    ((demoPipe.Close (NewPipe demoEnv (ascii "malloc://256") demoChild).2).2.1.Close
        (demoPipe.Close (NewPipe demoEnv (ascii "malloc://256") demoChild).2).2.2 =
      (Outcome.ret (some Error.ErrClosed), demoPipe,
        { (demoPipe.Close (NewPipe demoEnv (ascii "malloc://256") demoChild).2).2.2 with
          log := (demoPipe.Close (NewPipe demoEnv (ascii "malloc://256") demoChild).2).2.2.log ++
            [Effect.write (ascii "q" ++ [10]) 0] })) :=
  ⟨(Close_twice demoEnv [] World.init World.init demoChild demoFdPipe).1 (by decide),
   (Close_twice demoEnv [] World.init demoLoaded demoLoaded demoNativePipe).2.1
      (Or.inr ⟨by decide, by decide⟩),
   (Close_twice demoEnv (ascii "malloc://256") demoChild
      (NewPipe demoEnv (ascii "malloc://256") demoChild).2
      (NewPipe demoEnv (ascii "malloc://256") demoChild).2 demoPipe).2.2
      (by decide) (by decide) (by decide)⟩

/-- After a `NativeLoad` that failed on `r_core_free`, `lib` is set: the next
`NativeLoad` returns nil, `NewNativePipe` returns a Pipe, and `Close` and `On` on it
call a nil function variable and panic. -/
theorem native_after_failed_load_panics :
    (NewNativePipe demoBrokenEnv [] World.init).1 = Outcome.ret (none, some (Error.sys 0)) ∧
      (NewNativePipe demoBrokenEnv [] (NewNativePipe demoBrokenEnv [] World.init).2).1 =
        Outcome.ret (some demoNativePipe, none) ∧
      (demoNativePipe.Close (NewNativePipe demoBrokenEnv [] World.init).2).1 = Outcome.panic ∧
      (demoNativePipe.On (ascii "errmsg") () ()
        (NewNativePipe demoBrokenEnv [] World.init).2).1 = Outcome.panic := by
  decide

/-- C6, as the claim states it, fails on a Pipe with inherited descriptors: `Close`
returns nil and does nothing, and the next `Cmd` returns a response and a nil error. -/
theorem Cmd_after_Close_counterexample :
    (NewPipe demoEnv [] (answering [[ascii "Hello World\n\x00"]])).1 =
        Outcome.ret (some demoFdPipe, none) ∧
      demoFdPipe.Close (answering [[ascii "Hello World\n\x00"]]) =
        (Outcome.ret none, demoFdPipe, answering [[ascii "Hello World\n\x00"]]) ∧
      (demoFdPipe.Cmd (ascii "ps") (answering [[ascii "Hello World\n\x00"]])).1 =
        Outcome.ret (ascii "Hello World", none) := by
  decide

/-- After `NativeClose` the field `Core` is nil and `Cmd` takes the stream path with a nil
request stream: the call panics. -/
theorem Cmd_after_NativeClose_panics :
    NewNativePipe demoEnv [] World.init = (Outcome.ret (some demoNativePipe, none), demoLoaded) ∧
      (demoNativePipe.Close demoLoaded).1 = Outcome.ret none ∧
      ((demoNativePipe.Close demoLoaded).2.1.Cmd (ascii "ps")
        (demoNativePipe.Close demoLoaded).2.2).1 = Outcome.panic := by
  decide

/-- C6, amended. A spawned Pipe on which `Close` or `ForceClose` has returned nil:
every later `Cmd` returns the empty string and a non-nil error (the write on the
closed request stream fails), without a panic.  A Pipe with inherited descriptors:
`Close` and `ForceClose` return nil and change nothing, so the Pipe keeps executing
commands. -/
theorem Cmd_after_close (env : Env) (file cmd : List Byte) (w0 w1 w : World) (r2p : Pipe) :
    (file ≠ [] → NewPipe env file w0 = (Outcome.ret (some r2p, none), w1) →
      ((r2p.Close w).1 = Outcome.ret none →
        ((r2p.Close w).2.1.Cmd cmd (r2p.Close w).2.2).1 =
          Outcome.ret ([], some Error.ErrClosed)) ∧
      ((r2p.ForceClose w).1 = Outcome.ret none →
        ((r2p.ForceClose w).2.1.Cmd cmd (r2p.ForceClose w).2.2).1 =
          Outcome.ret ([], some Error.ErrClosed))) ∧
    (NewPipe env [] w0 = (Outcome.ret (some r2p, none), w1) →
      r2p.Close w = (Outcome.ret none, r2p, w) ∧ r2p.ForceClose w = (Outcome.ret none, r2p, w)) := by
  refine ⟨fun hf h => ?_, fun h => ?_⟩
  · have hshape := newPipeCmd_shape env file w0 w1 r2p (by simpa [NewPipe, hf] using h)
    have hcl : r2p.close = none := by rw [hshape]
    have hfile : r2p.File ≠ [] := by rw [hshape]; exact hf
    have hcore : r2p.Core = none := by rw [hshape]
    have hin : r2p.stdin = some Handle.childStdin := by rw [hshape]
    have key : ∀ quit, (r2p.closeWith quit w).1 = Outcome.ret none →
        ((r2p.closeWith quit w).2.1.Cmd cmd (r2p.closeWith quit w).2.2).1 =
          Outcome.ret ([], some Error.ErrClosed) := by
      intro quit hnil
      obtain ⟨h1, h2, _, _⟩ := closeWith_nil quit r2p w hcl hfile hnil
      rw [h1]
      simp [Pipe.Cmd, hcore, Fprintln, Pipe.Write, hin, World.write, Handle.valid, h2]
    exact ⟨key _, key _⟩
  · obtain ⟨hF, _, _, _, hcl, _, _⟩ := newPipeFd_shape env w0 w1 r2p (by simpa [NewPipe] using h)
    constructor <;> simp [Pipe.Close, Pipe.ForceClose, hcl, hF]

/-- Witness of C6: the spawned Pipe after `Close` and after `ForceClose`, and the Pipe
with inherited descriptors. -/
theorem Cmd_after_close_witness :
    (((demoPipe.Close (NewPipe demoEnv (ascii "malloc://256") demoChild).2).2.1.Cmd (ascii "ps")
          (demoPipe.Close (NewPipe demoEnv (ascii "malloc://256") demoChild).2).2.2).1 =
        Outcome.ret ([], some Error.ErrClosed)) ∧
    (((demoPipe.ForceClose (NewPipe demoEnv (ascii "malloc://256") demoChild).2).2.1.Cmd
          (ascii "ps")
          (demoPipe.ForceClose (NewPipe demoEnv (ascii "malloc://256") demoChild).2).2.2).1 =
        Outcome.ret ([], some Error.ErrClosed)) ∧
    (demoFdPipe.Close demoChild = (Outcome.ret none, demoFdPipe, demoChild) ∧
      demoFdPipe.ForceClose demoChild = (Outcome.ret none, demoFdPipe, demoChild)) :=
  ⟨((Cmd_after_close demoEnv (ascii "malloc://256") (ascii "ps") demoChild
        (NewPipe demoEnv (ascii "malloc://256") demoChild).2
        (NewPipe demoEnv (ascii "malloc://256") demoChild).2 demoPipe).1
        (by decide) (by decide)).1 (by decide),
   ((Cmd_after_close demoEnv (ascii "malloc://256") (ascii "ps") demoChild
        (NewPipe demoEnv (ascii "malloc://256") demoChild).2
        (NewPipe demoEnv (ascii "malloc://256") demoChild).2 demoPipe).1
        (by decide) (by decide)).2 (by decide),
   (Cmd_after_close demoEnv [] (ascii "ps") World.init World.init demoChild demoFdPipe).2
      (by decide)⟩

/-! ## Events -/

/-- C7, as the claim states it, fails: on a native Pipe whose `===stderr` command
returns a path that can be opened, `On` opens it, starts the goroutine and returns nil. -/
theorem On_native_counterexample :
    demoNativePipe.Core ≠ none ∧ demoNativePipe.cmd ≠ none ∧
      demoNativePipe.On (ascii "errmsg") () () demoSideChannel =
        (Outcome.ret none, demoNativePipe,
          { demoSideChannel with
            coreOut := [],
            log := [Effect.coreCmd (some 1) (ascii "===stderr"),
                    Effect.openFile (ascii "/tmp/r2.err") OpenOutcome.ok,
                    Effect.go (ascii "/tmp/r2.err") (ascii "errmsg")] }) := by
  decide

/-- C7, amended. On a Pipe bound to a native core (`Core` non-nil, a `cmd` delegate)
whose command function can be called (the delegate of `NewApiPipe`; the one of
`NewNativePipe` when the function variable `rCoreCmdStr` is set), for every event
name, user value and callback, `On` runs the native command "===stderr" and opens the
string it returns as a read-only file.  When the open fails `On` returns the error of
that open, starts no goroutine, and no callback runs; when it succeeds `On` starts the
goroutine and returns nil; when the open blocks, `On` blocks. -/
theorem On_native {U C : Type} (r2p : Pipe) (evname : List Byte) (p : U) (cb : C) (w : World)
    (d : CmdDelegate) (hcore : r2p.Core ≠ none) (hcmd : r2p.cmd = some d)
    (hsym : d = CmdDelegate.native → w.rCoreCmdStr = true) :
    (∀ errno, (w.files.lookup (w.coreCmdStr r2p.Core (ascii "===stderr")).1).getD w.openDefault =
        OpenOutcome.fail errno →
      r2p.On evname p cb w =
        (Outcome.ret (some (Error.sys errno)), r2p,
          { (w.coreCmdStr r2p.Core (ascii "===stderr")).2 with
            log := w.log ++ [Effect.coreCmd r2p.Core (ascii "===stderr"),
              Effect.openFile (w.coreCmdStr r2p.Core (ascii "===stderr")).1
                (OpenOutcome.fail errno)] })) ∧
    ((w.files.lookup (w.coreCmdStr r2p.Core (ascii "===stderr")).1).getD w.openDefault =
        OpenOutcome.ok →
      r2p.On evname p cb w =
        (Outcome.ret none, r2p,
          { (w.coreCmdStr r2p.Core (ascii "===stderr")).2 with
            log := w.log ++ [Effect.coreCmd r2p.Core (ascii "===stderr"),
              Effect.openFile (w.coreCmdStr r2p.Core (ascii "===stderr")).1 OpenOutcome.ok,
              Effect.go (w.coreCmdStr r2p.Core (ascii "===stderr")).1 evname] })) ∧
    ((w.files.lookup (w.coreCmdStr r2p.Core (ascii "===stderr")).1).getD w.openDefault =
        OpenOutcome.block →
      r2p.On evname p cb w =
        (Outcome.hang, r2p,
          { (w.coreCmdStr r2p.Core (ascii "===stderr")).2 with
            log := w.log ++ [Effect.coreCmd r2p.Core (ascii "===stderr"),
              Effect.openFile (w.coreCmdStr r2p.Core (ascii "===stderr")).1
                OpenOutcome.block] })) := by
  have hfiles : (w.coreCmdStr r2p.Core (ascii "===stderr")).2.files = w.files := by
    unfold World.coreCmdStr
    split <;> rfl
  have hdef : (w.coreCmdStr r2p.Core (ascii "===stderr")).2.openDefault = w.openDefault := by
    unfold World.coreCmdStr
    split <;> rfl
  have hlog : (w.coreCmdStr r2p.Core (ascii "===stderr")).2.log =
      w.log ++ [Effect.coreCmd r2p.Core (ascii "===stderr")] := by
    unfold World.coreCmdStr
    split <;> rfl
  have hc : r2p.Cmd (ascii "===stderr") w =
      (Outcome.ret ((w.coreCmdStr r2p.Core (ascii "===stderr")).1, none), r2p,
        (w.coreCmdStr r2p.Core (ascii "===stderr")).2) := by
    cases d
    · simp [Pipe.Cmd, hcore, hcmd, CmdDelegate.call, Pipe.NativeCmd, hsym rfl]
    · simp [Pipe.Cmd, hcore, hcmd, CmdDelegate.call, Pipe.ApiCmd]
  refine ⟨fun errno hopen => ?_, fun hopen => ?_, fun hopen => ?_⟩
  · simp [Pipe.On, hc, World.openFile, hfiles, hdef, hopen, hlog]
  · simp [Pipe.On, hc, World.openFile, hfiles, hdef, hopen, hlog]
  · simp [Pipe.On, hc, World.openFile, hfiles, hdef, hopen, hlog]

/-- Witness of C7: the native command returns the empty string, whose open fails with
ENOENT; and it returns a path that can be opened. -/
theorem On_native_witness :
    demoNativePipe.On (ascii "errmsg") () () demoLoaded =
      (Outcome.ret (some (Error.sys 2)), demoNativePipe,
        { demoLoaded with
          log := [Effect.coreCmd (some 1) (ascii "===stderr"),
                  Effect.openFile [] (OpenOutcome.fail 2)] }) ∧
    demoNativePipe.On (ascii "errmsg") () () demoSideChannel =
      (Outcome.ret none, demoNativePipe,
        { demoSideChannel with
          coreOut := [],
          log := [Effect.coreCmd (some 1) (ascii "===stderr"),
                  Effect.openFile (ascii "/tmp/r2.err") OpenOutcome.ok,
                  Effect.go (ascii "/tmp/r2.err") (ascii "errmsg")] }) :=
  ⟨(On_native demoNativePipe (ascii "errmsg") () () demoLoaded CmdDelegate.native (by decide)
      rfl (fun _ => rfl)).1 2 (by decide),
   (On_native demoNativePipe (ascii "errmsg") () () demoSideChannel CmdDelegate.native
      (by decide) rfl (fun _ => rfl)).2.1 (by decide)⟩

/-! ## The transport fields -/

theorem Cmdj_pipe {J : Type} (Unmarshal : List Byte → Option J × Option Error) (r2p : Pipe)
    (cmd : List Byte) (w : World) : (r2p.Cmdj Unmarshal cmd w).2.1 = r2p := by
  have hp := Cmd_pipe r2p cmd w
  unfold Pipe.Cmdj
  rcases hc : r2p.Cmd cmd w with ⟨o, p1, w1⟩
  rw [hc] at hp
  rcases o with ⟨s, _ | e⟩ | _ | _ <;> exact hp

theorem CmdjStruct_pipe {S : Type} (Unmarshal : List Byte → S → S × Option Error) (r2p : Pipe)
    (cmd : List Byte) (out : S) (w : World) :
    (r2p.CmdjStruct Unmarshal cmd out w).2.1 = r2p := by
  have hp := Cmd_pipe r2p cmd w
  unfold Pipe.CmdjStruct
  rcases hc : r2p.Cmd cmd w with ⟨o, p1, w1⟩
  rw [hc] at hp
  rcases o with ⟨s, _ | e⟩ | _ | _ <;> exact hp

/-- C8, as the claim states it, fails: the Pipe `NewPipe` returns for the empty target
has neither a process handle nor a native handle. -/
theorem transport_fields_counterexample :
    (NewPipe demoEnv [] World.init).1 = Outcome.ret (some demoFdPipe, none) ∧
      demoFdPipe.r2cmd = none ∧ demoFdPipe.Core = none := by
  decide

/-- C8, amended. A Pipe returned by a successful constructor never has both `r2cmd`
and `Core` set: a spawned Pipe (`NewPipe`, non-empty target) has `r2cmd` set and
`Core` nil; a Pipe with inherited descriptors (`NewPipe`, empty target) has neither;
a native Pipe (`NewNativePipe`, `NewApiPipe`) has `r2cmd` nil and `Core` equal to the
handle `r_core_new` returned.  `Cmd`, `Cmdf`, `Cmdj` and `CmdjStruct` leave the Pipe,
hence both fields, unchanged. -/
theorem transport_fields {F A J S : Type} (Sprintf : F → A → List Byte)
    (UnmarshalAny : List Byte → Option J × Option Error)
    (UnmarshalInto : List Byte → S → S × Option Error)
    (env : Env) (file : List Byte) (w0 w1 : World) (r2p : Pipe)
    (hctor : NewPipe env file w0 = (Outcome.ret (some r2p, none), w1) ∨
      NewNativePipe env file w0 = (Outcome.ret (some r2p, none), w1) ∨
      NewApiPipe env file w0 = (Outcome.ret (some r2p, none), w1)) :
    ¬ (r2p.r2cmd ≠ none ∧ r2p.Core ≠ none) ∧
    (NewPipe env file w0 = (Outcome.ret (some r2p, none), w1) → file ≠ [] →
      r2p.r2cmd ≠ none ∧ r2p.Core = none) ∧
    (NewPipe env file w0 = (Outcome.ret (some r2p, none), w1) → file = [] →
      r2p.r2cmd = none ∧ r2p.Core = none) ∧
    (NewNativePipe env file w0 = (Outcome.ret (some r2p, none), w1) ∨
      NewApiPipe env file w0 = (Outcome.ret (some r2p, none), w1) →
      r2p.r2cmd = none ∧ r2p.Core = env.newCore) ∧
    (∀ cmd w, (r2p.Cmd cmd w).2.1 = r2p) ∧
    (∀ f args w, (r2p.Cmdf Sprintf f args w).2.1 = r2p) ∧
    (∀ cmd w, (r2p.Cmdj UnmarshalAny cmd w).2.1 = r2p) ∧
    (∀ cmd out w, (r2p.CmdjStruct UnmarshalInto cmd out w).2.1 = r2p) := by
  have hspawn : NewPipe env file w0 = (Outcome.ret (some r2p, none), w1) → file ≠ [] →
      r2p.r2cmd ≠ none ∧ r2p.Core = none := by
    intro h hf
    have hshape := newPipeCmd_shape env file w0 w1 r2p (by simpa [NewPipe, hf] using h)
    rw [hshape]
    simp
  have hfd : NewPipe env file w0 = (Outcome.ret (some r2p, none), w1) → file = [] →
      r2p.r2cmd = none ∧ r2p.Core = none := by
    intro h hf
    obtain ⟨_, h1, h2, _⟩ := newPipeFd_shape env w0 w1 r2p (by simpa [NewPipe, hf] using h)
    exact ⟨h1, h2⟩
  have hnative : NewNativePipe env file w0 = (Outcome.ret (some r2p, none), w1) ∨
      NewApiPipe env file w0 = (Outcome.ret (some r2p, none), w1) →
      r2p.r2cmd = none ∧ r2p.Core = env.newCore := by
    intro h
    rcases h with h | h
    · rw [NewNativePipe_shape env file w0 w1 r2p h]
      simp
    · rw [NewApiPipe_shape env file w0 w1 r2p h]
      simp
  refine ⟨?_, hspawn, hfd, hnative, Cmd_pipe r2p, fun f args w => Cmd_pipe r2p _ w,
    Cmdj_pipe UnmarshalAny r2p, CmdjStruct_pipe UnmarshalInto r2p⟩
  rintro ⟨hr, hc⟩
  rcases hctor with h | h | h
  · by_cases hf : file = []
    · exact hr (hfd h hf).1
    · exact hc (hspawn h hf).2
  · exact hr (hnative (Or.inl h)).1
  · exact hr (hnative (Or.inr h)).1

/-- Witness of C8: the spawned Pipe of `NewPipe "malloc://256"`. -/
theorem transport_fields_witness :
    ¬ (demoPipe.r2cmd ≠ none ∧ demoPipe.Core ≠ none) ∧
      (demoPipe.r2cmd ≠ none ∧ demoPipe.Core = none) ∧
      (demoPipe.Cmd (ascii "ps") demoChild).2.1 = demoPipe :=
  have h := transport_fields (fun (f : List Byte) (_ : Unit) => f)
    (fun (_ : List Byte) => ((none : Option Unit), (none : Option Error)))
    (fun (_ : List Byte) (s : Unit) => (s, (none : Option Error)))
    demoEnv (ascii "malloc://256") demoChild
    (NewPipe demoEnv (ascii "malloc://256") demoChild).2 demoPipe (Or.inl (by decide))
  ⟨h.1, h.2.1 (by decide) (by decide), h.2.2.2.2.1 (ascii "ps") demoChild⟩

/-! ## The request stream -/

theorem readsOnly_refl (w : World) : ReadsOnly w w := ⟨[], by simp, by simp⟩

theorem readsOnly_trans {a b c : World} (h1 : ReadsOnly a b) (h2 : ReadsOnly b c) :
    ReadsOnly a c := by
  obtain ⟨r1, hr1, e1⟩ := h1
  obtain ⟨r2, hr2, e2⟩ := h2
  refine ⟨r1 ++ r2, ?_, ?_⟩
  · intro e he
    rcases List.mem_append.mp he with he | he
    · exact hr1 e he
    · exact hr2 e he
  · rw [e2, e1]
    simp [List.append_assoc]

theorem read_readsOnly (w : World) (h : Handle) (cap : Nat) : ReadsOnly w (w.read h cap).2 := by
  unfold World.read
  split
  · exact ⟨[Effect.read []], by simp [Effect.isRead], rfl⟩
  · split
    · exact ⟨[Effect.read []], by simp [Effect.isRead], rfl⟩
    · split
      · exact readsOnly_refl w
      · split
        · exact ⟨[Effect.read _], by simp [Effect.isRead], rfl⟩
        · exact ⟨[Effect.read _], by simp [Effect.isRead], rfl⟩
      · exact ⟨[Effect.read []], by simp [Effect.isRead], rfl⟩
      · exact ⟨[Effect.read []], by simp [Effect.isRead], rfl⟩

theorem Read_readsOnly (r2p : Pipe) (cap : Nat) (w : World) : ReadsOnly w (r2p.Read cap w).2 := by
  unfold Pipe.Read
  split
  · exact readsOnly_refl w
  · exact read_readsOnly w _ cap

theorem fillLoop_readsOnly (r2p : Pipe) :
    ∀ (i : Nat) (b : Reader) (w : World), ReadsOnly w (fillLoop r2p i b w).2 := by
  intro i
  induction i with
  | zero => intro b w; exact readsOnly_refl w
  | succ i ih =>
    intro b w
    have hr := Read_readsOnly r2p (defaultBufSize - b.buf.length) w
    unfold fillLoop
    rcases hc : r2p.Read (defaultBufSize - b.buf.length) w with ⟨o, w1⟩
    rw [hc] at hr
    rcases o with ⟨_ | _ | _⟩ | _ | _
    · simp only
      split
      · exact hr
      · exact readsOnly_trans hr (ih b w1)
    · exact hr
    · exact hr
    · exact hr
    · exact hr

theorem ReadSlice_readsOnly (r2p : Pipe) (delim : Byte) :
    ∀ (fuel : Nat) (b : Reader) (w : World), ReadsOnly w (ReadSlice r2p delim fuel b w).2.2 := by
  intro fuel
  induction fuel with
  | zero => intro b w; exact readsOnly_refl w
  | succ f ih =>
    intro b w
    unfold ReadSlice
    split
    · exact readsOnly_refl w
    · split
      · exact readsOnly_refl w
      · split
        · exact readsOnly_refl w
        · have hr := fillLoop_readsOnly r2p maxConsecutiveEmptyReads b w
          unfold fill
          rcases hc : fillLoop r2p maxConsecutiveEmptyReads b w with ⟨o, w1⟩
          rw [hc] at hr
          rcases o with _ | _ | _
          · exact readsOnly_trans hr (ih _ w1)
          · exact hr
          · exact hr

theorem collectFragments_readsOnly (r2p : Pipe) (delim : Byte) (F : Nat) :
    ∀ (n : Nat) (acc : List Byte) (b : Reader) (w : World),
      ReadsOnly w (collectFragments r2p delim F n acc b w).2.2 := by
  intro n
  induction n with
  | zero => intro acc b w; exact readsOnly_refl w
  | succ n ih =>
    intro acc b w
    have hr := ReadSlice_readsOnly r2p delim F b w
    unfold collectFragments
    rcases hc : ReadSlice r2p delim F b w with ⟨o, b1, w1⟩
    rw [hc] at hr
    rcases o with ⟨frag, _ | e⟩ | _ | _
    · exact hr
    · simp only
      split
      · exact readsOnly_trans hr (ih _ b1 w1)
      · exact hr
    · exact hr
    · exact hr

theorem ReadString_readsOnly (r2p : Pipe) (b : Reader) (delim : Byte) (w : World) :
    ReadsOnly w (ReadString r2p b delim w).2.2 :=
  collectFragments_readsOnly r2p delim w.fuel w.fuel [] b w

/-- One `Write`: one entry in the log, a prefix of the payload on the stream, all of
it when the handle is valid and the stream open and sound. -/
theorem write_log (w : World) (h : Handle) (p : List Byte) :
    ∃ n, (w.write h p).2.log = w.log ++ [Effect.write p n] ∧
      (w.write h p).2.written = w.written ++ p.take n ∧
      (h.valid = true → w.stdinClosed = false → w.stdinFault = none → n = p.length) := by
  unfold World.write
  split
  · rename_i hv
    exact ⟨0, rfl, by simp, fun h1 => by simp [hv] at h1⟩
  split
  · rename_i hc
    exact ⟨0, rfl, by simp, fun _ h1 => by simp [hc] at h1⟩
  · split
    · exact ⟨p.length, by simp [World.react]; split <;> rfl,
        by simp [World.react]; split <;> rfl, fun _ _ _ => rfl⟩
    · rename_i k e hf
      split
      · exact ⟨p.length, by simp [World.react]; split <;> rfl,
          by simp [World.react]; split <;> rfl, fun _ _ _ => rfl⟩
      · exact ⟨k, rfl, rfl, fun _ _ h2 => by simp [hf] at h2⟩

/-- The world `Cmd` leaves on the stream path: one write, then reads only. -/
theorem Cmd_wire (r2p : Pipe) (cmd : List Byte) (w : World) (h : Handle)
    (hcore : r2p.Core = none) (hin : r2p.stdin = some h) :
    ∃ n rs, (∀ e ∈ rs, Effect.isRead e = true) ∧
      (r2p.Cmd cmd w).2.2.log = w.log ++ Effect.write (cmd ++ [10]) n :: rs ∧
      (r2p.Cmd cmd w).2.2.written = w.written ++ (cmd ++ [10]).take n ∧
      (h.valid = true → w.stdinClosed = false → w.stdinFault = none →
        n = (cmd ++ [10]).length) := by
  obtain ⟨n, hl, hwr, hn⟩ := write_log w h (cmd ++ [10])
  have hR := ReadString_readsOnly r2p NewReader 0 (w.write h (cmd ++ [10])).2
  have hcases : (r2p.Cmd cmd w).2.2 = (w.write h (cmd ++ [10])).2 ∨
      (r2p.Cmd cmd w).2.2 = (ReadString r2p NewReader 0 (w.write h (cmd ++ [10])).2).2.2 := by
    unfold Pipe.Cmd
    simp only [hcore, Fprintln, Pipe.Write, hin, ne_eq, not_true_eq_false, if_false]
    rcases (w.write h (cmd ++ [10])).1 with ⟨k, _ | e⟩
    · right
      rcases hrs : ReadString r2p NewReader 0 (w.write h (cmd ++ [10])).2 with ⟨o, b, w2⟩
      rcases o with ⟨s, _ | e⟩ | _ | _ <;> simp [hrs]
    · left; rfl
  rcases hcases with hc | hc
  · exact ⟨n, [], by simp, by rw [hc, hl], by rw [hc, hwr], hn⟩
  · obtain ⟨rs, hrs, heq⟩ := hR
    refine ⟨n, rs, hrs, ?_, ?_, hn⟩
    · rw [hc, heq]
      simp [hl]
    · rw [hc, heq]
      simp [hwr]

/-- The world `closeWith` leaves on a spawned Pipe: the quit command is the one write;
reads and at most the wait follow. -/
theorem closeWith_wire (quit : List Byte) (r2p : Pipe) (w : World) (h : Handle)
    (hclose : r2p.close = none) (hfile : r2p.File ≠ []) (hcore : r2p.Core = none)
    (hin : r2p.stdin = some h) :
    ∃ n rs, (∀ e ∈ rs, Effect.isRead e = true ∨ e = Effect.wait) ∧
      (r2p.closeWith quit w).2.2.log = w.log ++ Effect.write (quit ++ [10]) n :: rs ∧
      (r2p.closeWith quit w).2.2.written = w.written ++ (quit ++ [10]).take n ∧
      (h.valid = true → w.stdinClosed = false → w.stdinFault = none →
        n = (quit ++ [10]).length) := by
  obtain ⟨n, rs, hrs, hl, hwr, hn⟩ := Cmd_wire r2p quit w h hcore hin
  unfold Pipe.closeWith
  simp only [hclose, hfile, if_false]
  rcases hc : r2p.Cmd quit w with ⟨o, p1, w1⟩
  rw [hc] at hl hwr
  simp only at hl hwr
  have hkeep : ∃ n rs, (∀ e ∈ rs, Effect.isRead e = true ∨ e = Effect.wait) ∧
      w1.log = w.log ++ Effect.write (quit ++ [10]) n :: rs ∧
      w1.written = w.written ++ (quit ++ [10]).take n ∧
      (h.valid = true → w.stdinClosed = false → w.stdinFault = none →
        n = (quit ++ [10]).length) :=
    ⟨n, rs, fun e he => Or.inl (hrs e he), hl, hwr, hn⟩
  rcases o with ⟨s, _ | e⟩ | _ | _
  · simp only [Pipe.Wait]
    cases p1.r2cmd with
    | none => exact hkeep
    | some c =>
      simp only [World.wait]
      split
      · exact hkeep
      · split
        · exact hkeep
        · refine ⟨n, rs ++ [Effect.wait], ?_, ?_, hwr, hn⟩
          · intro e he
            rcases List.mem_append.mp he with he | he
            · exact Or.inl (hrs e he)
            · exact Or.inr (by simpa using he)
          · simp [hl]
  · exact hkeep
  · exact hkeep
  · exact hkeep

/-- C9. On a subprocess Pipe (`Core` nil, request stream bound), for every command,
`Cmd` makes exactly one `Write` on the request stream, of the bytes of the command
followed by one newline, before any read of the response stream, and nothing else
reaches the request stream: the bytes it takes are that payload (all of it when the
handle is valid and the stream open and sound).  On a spawned Pipe `Close` writes
"q\n" and `ForceClose` "q!\n" in the same way (one write, first, all of it taken by a
sound stream), followed only by reads and the wait. -/
theorem request_wire_format (r2p : Pipe) (cmd : List Byte) (w : World) (h : Handle)
    (hcore : r2p.Core = none) (hin : r2p.stdin = some h) :
    (∃ n rs, (∀ e ∈ rs, Effect.isRead e = true) ∧
      (r2p.Cmd cmd w).2.2.log = w.log ++ Effect.write (cmd ++ [10]) n :: rs ∧
      (r2p.Cmd cmd w).2.2.written = w.written ++ (cmd ++ [10]).take n ∧
      (h.valid = true → w.stdinClosed = false → w.stdinFault = none →
        n = (cmd ++ [10]).length)) ∧
    (r2p.close = none → r2p.File ≠ [] →
      (∃ n rs, (∀ e ∈ rs, Effect.isRead e = true ∨ e = Effect.wait) ∧
        (r2p.Close w).2.2.log = w.log ++ Effect.write (ascii "q\n") n :: rs ∧
        (r2p.Close w).2.2.written = w.written ++ (ascii "q\n").take n ∧
        (h.valid = true → w.stdinClosed = false → w.stdinFault = none →
          n = (ascii "q\n").length)) ∧
      (∃ n rs, (∀ e ∈ rs, Effect.isRead e = true ∨ e = Effect.wait) ∧
        (r2p.ForceClose w).2.2.log = w.log ++ Effect.write (ascii "q!\n") n :: rs ∧
        (r2p.ForceClose w).2.2.written = w.written ++ (ascii "q!\n").take n ∧
        (h.valid = true → w.stdinClosed = false → w.stdinFault = none →
          n = (ascii "q!\n").length))) :=
  ⟨Cmd_wire r2p cmd w h hcore hin, fun hclose hfile =>
    ⟨closeWith_wire (ascii "q") r2p w h hclose hfile hcore hin,
     closeWith_wire (ascii "q!") r2p w h hclose hfile hcore hin⟩⟩

/-- Witness of C9: the spawned Pipe facing the child of `demoChild`. -/
theorem request_wire_format_witness :
    (∃ n rs, (∀ e ∈ rs, Effect.isRead e = true) ∧
      (demoPipe.Cmd (ascii "ps") demoChild).2.2.log =
        demoChild.log ++ Effect.write (ascii "ps" ++ [10]) n :: rs ∧
      (demoPipe.Cmd (ascii "ps") demoChild).2.2.written =
        demoChild.written ++ (ascii "ps" ++ [10]).take n ∧
      (Handle.childStdin.valid = true → demoChild.stdinClosed = false →
        demoChild.stdinFault = none → n = (ascii "ps" ++ [10]).length)) ∧
    (∃ n rs, (∀ e ∈ rs, Effect.isRead e = true ∨ e = Effect.wait) ∧
      (demoPipe.Close demoChild).2.2.log = demoChild.log ++ Effect.write (ascii "q\n") n :: rs ∧
      (demoPipe.Close demoChild).2.2.written = demoChild.written ++ (ascii "q\n").take n ∧
      (Handle.childStdin.valid = true → demoChild.stdinClosed = false →
        demoChild.stdinFault = none → n = (ascii "q\n").length)) :=
  have h := request_wire_format demoPipe (ascii "ps") demoChild Handle.childStdin rfl rfl
  ⟨h.1, (h.2 rfl (by decide)).1⟩

/-! ## The event loop -/

/-- The buffer of the loop only grows: every text passed to the callback starts with
the buffer the loop was entered with. -/
theorem eventLoop_calls_extend {σ : Type} (cb : σ → List Byte → Bool × σ) :
    ∀ (fuel : Nat) (copies : List CopyResult) (buf : List Byte) (s : σ),
      ∀ t ∈ (eventLoop cb fuel copies buf s).calls, buf <+: t := by
  intro fuel
  induction fuel with
  | zero => intro copies buf s t ht; simp [eventLoop] at ht
  | succ f ih =>
    intro copies buf s t ht
    unfold eventLoop at ht
    split at ht
    · simp at ht
    · rename_i bs _
      split at ht
      · split at ht
        · simp only [List.mem_singleton] at ht
          rw [ht]
          exact List.prefix_append buf bs
        · simp only [List.mem_cons] at ht
          rcases ht with ht | ht
          · rw [ht]
            exact List.prefix_append buf bs
          · exact (List.prefix_append buf bs).trans (ih _ _ _ t ht)
      · exact (List.prefix_append buf bs).trans (ih _ _ _ t ht)

/-- C10, the code at the failing input.  The side-channel file yields "a", then "b";
the callback continues once and then stops: it is called with "a" and then with
"ab", so the byte "a" is delivered twice (the buffer is not reset).  And with "a"
alone and a callback that always continues, the same text is passed again on every
iteration. -/
theorem eventLoop_buffer_not_reset :
    eventLoop (stopAfter 1) 5 [CopyResult.copied (ascii "a"), CopyResult.copied (ascii "b")]
        [] 0 =
      { calls := [ascii "a", ascii "ab"], stopped := true, buf := ascii "ab" } ∧
    eventLoop (stopAfter 9) 3 [CopyResult.copied (ascii "a")] [] 0 =
      { calls := [ascii "a", ascii "a", ascii "a"], stopped := false, buf := ascii "a" } := by
  decide

/-! ## The fuel of the reader is not observable -/

/-- One `Read` takes what it returns off the queue, at least one unit of it when the
buffer is not empty, and never fails with `ErrBufferFull`. -/
theorem read_measure (w : World) (h : Handle) (cap : Nat) :
    pendingSize (w.read h cap).2.pending ≤ pendingSize w.pending ∧
      (∀ bs, (w.read h cap).1 = ReadResult.data bs →
        pendingSize (w.read h cap).2.pending + bs.length ≤ pendingSize w.pending ∧
        (0 < cap → pendingSize (w.read h cap).2.pending + 1 ≤ pendingSize w.pending)) ∧
      (∀ e, (w.read h cap).1 = ReadResult.error e → e ≠ Error.ErrBufferFull) := by
  unfold World.read
  split
  · exact ⟨le_refl _, by simp, by simp⟩
  split
  · exact ⟨le_refl _, by simp, by simp⟩
  split
  · exact ⟨le_refl _, by simp, by simp⟩
  · rename_i bs rest hp
    have hsz : pendingSize w.pending = bs.length + 1 + pendingSize rest := by rw [hp]; rfl
    split
    · refine ⟨?_, ?_, by simp⟩
      · show pendingSize rest ≤ _
        omega
      · intro bs1 hbs
        simp only [ReadResult.data.injEq] at hbs
        subst hbs
        refine ⟨?_, fun _ => ?_⟩
        · show pendingSize rest + bs.length ≤ _
          omega
        · show pendingSize rest + 1 ≤ _
          omega
    · rename_i hle
      have hd : (bs.drop cap).length = bs.length - cap := List.length_drop cap bs
      have ht : (bs.take cap).length = cap := by rw [List.length_take]; omega
      refine ⟨?_, ?_, by simp⟩
      · show (bs.drop cap).length + 1 + pendingSize rest ≤ _
        omega
      · intro bs1 hbs
        simp only [ReadResult.data.injEq] at hbs
        subst hbs
        refine ⟨?_, fun hcap => ?_⟩
        · show (bs.drop cap).length + 1 + pendingSize rest + (bs.take cap).length ≤ _
          omega
        · show (bs.drop cap).length + 1 + pendingSize rest + 1 ≤ _
          omega
  · rename_i errno rest hp
    have hsz : pendingSize w.pending = 1 + pendingSize rest := by rw [hp]; rfl
    refine ⟨?_, by simp, by simp⟩
    show pendingSize rest ≤ _
    omega
  · exact ⟨le_refl _, by simp, by simp⟩

/-- The same for `fill`: it sets an error other than `ErrBufferFull`, or appends data
and takes it off the queue. -/
theorem fillLoop_measure (r2p : Pipe) :
    ∀ (i : Nat) (b : Reader) (w : World),
      pendingSize (fillLoop r2p i b w).2.pending ≤ pendingSize w.pending ∧
        (∀ b1, (fillLoop r2p i b w).1 = Outcome.ret b1 → b.buf.length < defaultBufSize →
          (∃ e, e ≠ Error.ErrBufferFull ∧ b1 = { b with err := some e }) ∨
          (∃ t, t ≠ [] ∧ b1 = { b with buf := b.buf ++ t } ∧
            pendingSize (fillLoop r2p i b w).2.pending + t.length ≤
              pendingSize w.pending)) := by
  intro i
  induction i with
  | zero =>
    intro b w
    exact ⟨le_refl _, fun b1 h _ => Or.inl ⟨Error.ErrNoProgress, by decide, by
      simp only [fillLoop, Outcome.ret.injEq] at h
      exact h.symm⟩⟩
  | succ i ih =>
    intro b w
    unfold fillLoop
    cases hs : r2p.stdout with
    | none => simp [Pipe.Read, hs]
    | some h =>
      obtain ⟨hle, hdata, herr⟩ := read_measure w h (defaultBufSize - b.buf.length)
      simp only [Pipe.Read, hs]
      rcases hr : (w.read h (defaultBufSize - b.buf.length)).1 with bs | e | _
      · simp only
        split
        · rename_i hpos
          refine ⟨hle, fun b1 hb1 hlen => Or.inr ⟨bs, List.length_pos.mp hpos, ?_, ?_⟩⟩
          · simp only [Outcome.ret.injEq] at hb1
            exact hb1.symm
          · exact (hdata bs hr).1
        · obtain ⟨ih1, ih2⟩ := ih b (w.read h (defaultBufSize - b.buf.length)).2
          refine ⟨le_trans ih1 hle, fun b1 hb1 hlen => ?_⟩
          rcases ih2 b1 hb1 hlen with h1 | ⟨t, ht, hb, hsz⟩
          · exact Or.inl h1
          · exact Or.inr ⟨t, ht, hb, by omega⟩
      · refine ⟨hle, fun b1 hb1 _ => Or.inl ⟨e, herr e hr, ?_⟩⟩
        simp only [Outcome.ret.injEq] at hb1
        exact hb1.symm
      · exact ⟨hle, by simp⟩

/-- With an error pending, `ReadSlice` ends in its first iteration. -/
theorem ReadSlice_err_step (r2p : Pipe) (d : Byte) (k : Nat) (b : Reader) (w : World)
    (e : Error) (he : b.err = some e) :
    ReadSlice r2p d (k + 1) b w = ReadSlice r2p d 1 b w := by
  unfold ReadSlice
  cases indexByte b.buf d <;> simp [he]

/-- More fuel than `World.fuel` does not change `ReadSlice`. -/
theorem ReadSlice_stable (r2p : Pipe) (d : Byte) :
    ∀ (fuel : Nat) (b : Reader) (w : World), pendingSize w.pending + 2 ≤ fuel →
      ReadSlice r2p d fuel b w = ReadSlice r2p d (fuel + 1) b w := by
  intro fuel
  induction fuel with
  | zero => intro b w h; omega
  | succ f ih =>
    intro b w hf
    unfold ReadSlice
    cases indexByte b.buf d with
    | some i => rfl
    | none =>
      simp only
      cases he : b.err with
      | some e => rfl
      | none =>
        simp only
        by_cases hfull : defaultBufSize ≤ b.buf.length
        · simp [hfull]
        · simp only [hfull, if_false]
          obtain ⟨_, hm⟩ := fillLoop_measure r2p maxConsecutiveEmptyReads b w
          unfold fill
          rcases hfill : fillLoop r2p maxConsecutiveEmptyReads b w with ⟨o, w1⟩
          rw [hfill] at hm
          rcases o with b1 | _ | _
          · simp only
            rcases hm b1 rfl (by omega) with ⟨e, _, hb1⟩ | ⟨t, ht, hb1, hsz⟩
            · obtain ⟨f1, rfl⟩ : ∃ f1, f = f1 + 1 := ⟨f - 1, by omega⟩
              have he1 : b1.err = some e := by rw [hb1]
              rw [ReadSlice_err_step r2p d f1 b1 w1 e he1,
                ReadSlice_err_step r2p d (f1 + 1) b1 w1 e he1]
            · have := List.length_pos.mpr ht
              exact ih b1 w1 (by simp only at hsz; omega)
          · rfl
          · rfl

/-- When `ReadSlice`, entered without a pending error, reports a full buffer, the
reader is empty again and a buffer of bytes has left the queue. -/
theorem ReadSlice_full (r2p : Pipe) (d : Byte) :
    ∀ (fuel : Nat) (b : Reader) (w : World) (frag : List Byte) (b1 : Reader) (w1 : World),
      b.err = none →
      ReadSlice r2p d fuel b w = (Outcome.ret (frag, some Error.ErrBufferFull), b1, w1) →
      b1 = { buf := [], err := none } ∧
        pendingSize w1.pending + defaultBufSize ≤ pendingSize w.pending + b.buf.length := by
  intro fuel
  induction fuel with
  | zero => intro b w frag b1 w1 _ h; simp [ReadSlice] at h
  | succ f ih =>
    intro b w frag b1 w1 he h
    unfold ReadSlice at h
    cases hidx : indexByte b.buf d with
    | some i => simp [hidx] at h
    | none =>
      simp only [hidx, he] at h
      by_cases hfull : defaultBufSize ≤ b.buf.length
      · simp only [hfull, if_true, Prod.mk.injEq, Outcome.ret.injEq, and_true, true_and] at h
        obtain ⟨_, hb1, hw1⟩ := h
        exact ⟨hb1.symm, by rw [← hw1]; omega⟩
      · simp only [hfull, if_false] at h
        obtain ⟨_, hm⟩ := fillLoop_measure r2p maxConsecutiveEmptyReads b w
        unfold fill at h
        rcases hfill : fillLoop r2p maxConsecutiveEmptyReads b w with ⟨o, w2⟩
        rw [hfill] at hm h
        rcases o with b2 | _ | _
        · simp only at h
          rcases hm b2 rfl (by omega) with ⟨e, hne, hb2⟩ | ⟨t, ht, hb2, hsz⟩
          · exfalso
            have he2 : b2.err = some e := by rw [hb2]
            cases f with
            | zero => simp [ReadSlice] at h
            | succ f1 =>
              unfold ReadSlice at h
              cases hidx2 : indexByte b2.buf d with
              | some i => simp [hidx2] at h
              | none =>
                simp only [hidx2, he2, Prod.mk.injEq, Outcome.ret.injEq, Option.some.injEq] at h
                exact hne h.1.2
          · obtain ⟨h1, h2⟩ := ih b2 w2 frag b1 w1 (by rw [hb2]; exact he) h
            refine ⟨h1, ?_⟩
            have hl : b2.buf.length = b.buf.length + t.length := by rw [hb2]; simp
            simp only at hsz
            omega
        · simp at h
        · simp at h

/-- More rounds than `World.fuel` do not change `collectFragments`. -/
theorem collectFragments_stable_rounds (r2p : Pipe) (d : Byte) (F : Nat) :
    ∀ (n : Nat) (acc : List Byte) (w : World), pendingSize w.pending + 1 ≤ n →
      collectFragments r2p d F n acc NewReader w =
        collectFragments r2p d F (n + 1) acc NewReader w := by
  intro n
  induction n with
  | zero => intro acc w h; omega
  | succ n ih =>
    intro acc w hn
    unfold collectFragments
    rcases hrs : ReadSlice r2p d F NewReader w with ⟨o, b1, w1⟩
    rcases o with ⟨frag, _ | e⟩ | _ | _
    · rfl
    · simp only
      by_cases he : e = Error.ErrBufferFull
      · subst he
        obtain ⟨hb1, hsz⟩ := ReadSlice_full r2p d F NewReader w frag b1 w1 rfl hrs
        have h5 : NewReader.buf.length = 0 := rfl
        have h4 : 0 < defaultBufSize := by decide
        have hb : b1 = NewReader := hb1
        subst hb
        simp only [if_true]
        exact ih (acc ++ frag) w1 (by omega)
      · simp [he]
    · rfl
    · rfl

/-- More fuel for `ReadSlice` than `World.fuel` does not change `collectFragments`. -/
theorem collectFragments_stable_fuel (r2p : Pipe) (d : Byte) (F : Nat) :
    ∀ (n : Nat) (acc : List Byte) (w : World), pendingSize w.pending + 2 ≤ F →
      collectFragments r2p d F n acc NewReader w =
        collectFragments r2p d (F + 1) n acc NewReader w := by
  intro n
  induction n with
  | zero => intro acc w _; rfl
  | succ n ih =>
    intro acc w hF
    unfold collectFragments
    rw [← ReadSlice_stable r2p d F NewReader w hF]
    rcases hrs : ReadSlice r2p d F NewReader w with ⟨o, b1, w1⟩
    rcases o with ⟨frag, _ | e⟩ | _ | _
    · rfl
    · simp only
      by_cases he : e = Error.ErrBufferFull
      · subst he
        obtain ⟨hb1, hsz⟩ := ReadSlice_full r2p d F NewReader w frag b1 w1 rfl hrs
        have h5 : NewReader.buf.length = 0 := rfl
        have hb : b1 = NewReader := hb1
        subst hb
        simp only [if_true]
        exact ih (acc ++ frag) w1 (by omega)
      · simp [he]
    · rfl
    · rfl

/-- The fuel of `ReadString` is not observable: any larger bounds give the same
result, so a `hang` of the model is a `Read` that blocks, never a bound reached. -/
theorem ReadString_fuel (r2p : Pipe) (d : Byte) (w : World) (i j : Nat) :
    collectFragments r2p d (w.fuel + i) (w.fuel + j) [] NewReader w =
      ReadString r2p NewReader d w := by
  have hF : ∀ i, collectFragments r2p d (w.fuel + i) w.fuel [] NewReader w =
      ReadString r2p NewReader d w := by
    intro i
    induction i with
    | zero => rfl
    | succ i ih =>
      rw [← ih]
      exact (collectFragments_stable_fuel r2p d (w.fuel + i) w.fuel [] w
        (by unfold World.fuel; omega)).symm
  induction j with
  | zero => exact hF i
  | succ j ih =>
    rw [← ih]
    exact (collectFragments_stable_rounds r2p d (w.fuel + i) (w.fuel + j) [] w
      (by unfold World.fuel; omega)).symm

end R2pipe
